import Mathlib

/-!
Verification of the preprocessing character-stream transducer in
`src/ctags/main/get.c` (geany's ctags `get.c`).

The development is a shallow embedding of the C source:

* the in-place buffer pass `stripCodeBuffer` and the argument-list
  extractor `getArglistFromStr` are modelled over `List Char`
  (a C string is its list of characters before the terminating NUL);
* the character-stream layer (`cppGetc`, the comment/string skippers,
  the preprocessor-conditional stack) is modelled over `List Int`
  streams, `EOF = -1`, with the two-slot pushback and the external
  reader made explicit.

Definitions follow the C control flow line by line; theorems settle the
frozen specification claims.
-/

set_option autoImplicit false

namespace Get

/-! ### Buffer world: `stripCodeBuffer` (get.c:878-954)

The C function rewrites `buf` in place with read cursor `i` and write
cursor `pos`.  Every write lands at `pos ≤ i`, so writes never overrun,
and the reads of `buf[i-1]` and `buf[i+1]` that the loop performs always
see original input characters (the write cursor trails strictly behind
those positions whenever they are consulted).  The pass is therefore
faithfully modelled as a pure function from the original character list
to the written prefix. -/

/-- The `ParseState` enum of get.c:868-876. -/
inductive ParseState where
  | st_none_t
  | st_escape_t
  | st_c_comment_t
  | st_cpp_comment_t
  | st_double_quote_t
  | st_single_quote_t
deriving DecidableEq, Repr

open ParseState

/-- C `isspace` on the ASCII characters that can sit in a `char` buffer. -/
def cIsSpace (c : Char) : Bool :=
  c = ' ' || c = '\t' || c = '\n' || c = '\x0b' || c = '\x0c' || c = '\r'

/-- The guarded space write of stripCodeBuffer:
`if ((pos > 0) && (buf[pos-1] != ' ')) buf[pos++] = ' ';` -/
def putSpace (out : List Char) : List Char :=
  if out ≠ [] ∧ out.getLast? ≠ some ' ' then out ++ [' '] else out

/-- One iteration of the stripCodeBuffer while-loop body, the `switch`
of get.c:885-949, acting on the machine registers.

Arguments: current `state`, `prev_state`, the previous input character
`prevChar` (the C code's `buf[i-1]`, still the original character
wherever the loop consults it), the lookahead `nextChar` (the C code's
`buf[i+1]`, which is the terminating NUL at the end of the buffer), the
current character `c` (`buf[i]`), and the written prefix `out` (the C
code's `buf[0..pos-1]`).  Returns the new `state`, `prev_state` and
written prefix. -/
def stripStep (state prevState : ParseState) (prevChar nextChar c : Char)
    (out : List Char) : ParseState × ParseState × List Char :=
  if c = '/' then
    -- case '/'
    if state = st_none_t then
      if nextChar = '*' then (st_c_comment_t, prevState, out)
      else if nextChar = '/' then (st_cpp_comment_t, prevState, out)
      else (state, prevState, out ++ ['/'])
    else if state = st_c_comment_t then
      if prevChar = '*' then (st_none_t, prevState, putSpace out)
      else (state, prevState, out)
    else (state, prevState, out)
  else if c = '"' then
    -- case '"'
    if state = st_none_t then (st_double_quote_t, prevState, out)
    else if state = st_double_quote_t then (st_none_t, prevState, out)
    else (state, prevState, out)
  else if c = '\'' then
    -- case '\''
    if state = st_none_t then (st_single_quote_t, prevState, out)
    else if state = st_single_quote_t then (st_none_t, prevState, out)
    else (state, prevState, out)
  else
    -- default
    if c = '\\' ∧ state ≠ st_escape_t then (st_escape_t, state, out)
    else if state = st_escape_t then (prevState, st_none_t, out)
    else if c = '\n' ∧ state = st_cpp_comment_t then (st_none_t, prevState, putSpace out)
    else if state = st_none_t then
      if cIsSpace c then (state, prevState, putSpace out)
      else (state, prevState, out ++ [c])
    else (state, prevState, out)

/-- The stripCodeBuffer while-loop (get.c:883-951): fold `stripStep`
over the input, threading the current character in as the next step's
`prevChar`. -/
def stripGo : ParseState → ParseState → Char → List Char → List Char → List Char
  | _, _, _, out, [] => out
  | state, prevState, prevChar, out, c :: rest =>
    let s := stripStep state prevState prevChar (rest.headD (Char.ofNat 0)) c out
    stripGo s.1 s.2.1 c s.2.2 rest

/-- `stripCodeBuffer` (get.c:878-954): strips C and C++ comments,
drops string and character literals, and collapses whitespace runs,
rewriting the buffer in place.  The model maps the original contents to
the written contents. -/
def stripCodeBuffer (buf : List Char) : List Char :=
  stripGo st_none_t st_none_t (Char.ofNat 0) [] buf

/-! ### Buffer world: `getArglistFromStr` (get.c:956-978) -/

/-- Whether `needle` is a leading subword of `hay` (character-wise). -/
def leadsIn : List Char → List Char → Bool
  | [], _ => true
  | _ :: _, [] => false
  | a :: as, b :: bs => a = b && leadsIn as bs

/-- Index of the first occurrence of `needle` in `hay` (C `strstr`). -/
def findSub (needle : List Char) : List Char → Option Nat
  | [] => if needle = [] then some 0 else none
  | b :: bs =>
    if leadsIn needle (b :: bs) then some 0
    else (findSub needle bs).map (· + 1)

/-- Index of the first occurrence of character `ch` (C `strchr`). -/
def findChar (ch : Char) : List Char → Option Nat
  | [] => none
  | b :: bs => if b = ch then some 0 else (findChar ch bs).map (· + 1)

/-- The balanced-parenthesis scan of get.c:967-975, entered just after
the opening `(` with `level = 1`.  A processed character is part of the
span; the loop stops after the `)` that brings `level` to 0, or at the
end of the buffer (the C code's terminating NUL). -/
def arglistScan : Nat → List Char → List Char
  | _, [] => []
  | level, c :: rest =>
    let level' := if c = '(' then level + 1 else if c = ')' then level - 1 else level
    if level' = 0 then [c]
    else c :: arglistScan level' rest

/-- `getArglistFromStr` (get.c:956-978): strip the buffer, locate
`name`, locate the first `(` from there, scan to the balancing `)` (or
the end of the buffer) and return that span. -/
def getArglistFromStr (buf name : List Char) : Option (List Char) :=
  if name = [] then none
  else
    match findSub name (stripCodeBuffer buf) with
    | none => none
    | some i =>
      match findChar '(' ((stripCodeBuffer buf).drop i) with
      | none => none
      | some j => some ('(' :: arglistScan 1 (((stripCodeBuffer buf).drop i).drop (j + 1)))

/-- Parenthesis weight of one character. -/
def pweight (c : Char) : Int :=
  if c = '(' then 1 else if c = ')' then -1 else 0

/-- Parenthesis depth of a character list: number of `(` minus number
of `)`. -/
def parenDepth (l : List Char) : Int :=
  (l.map pweight).sum

/-- The property claim C1 asserts of every non-null result: starts with
`(`, ends with `)`, equal counts of `(` and `)`, and the running count
never goes negative left to right.  (After `stripCodeBuffer` the buffer
contains no string or character literals, so counting every parenthesis
is counting outside literals.) -/
def argClaimOK (s : List Char) : Bool :=
  s.head? = some '(' && s.getLast? = some ')' && parenDepth s = 0 &&
    (List.range (s.length + 1)).all fun n => 0 ≤ parenDepth (s.take n)

/-! ### C10: stripCodeBuffer never writes past what it has read -/

theorem putSpace_length (out : List Char) : (putSpace out).length ≤ out.length + 1 := by
  unfold putSpace; split <;> simp

theorem stripStep_length (state prevState : ParseState) (prevChar nextChar c : Char)
    (out : List Char) :
    (stripStep state prevState prevChar nextChar c out).2.2.length ≤ out.length + 1 := by
  have hps := putSpace_length out
  unfold stripStep
  split_ifs <;> simp_all <;> try omega

theorem stripGo_length (l : List Char) : ∀ (state prevState : ParseState) (prevChar : Char)
    (out : List Char),
    (stripGo state prevState prevChar out l).length ≤ out.length + l.length := by
  induction l with
  | nil => intro state prevState prevChar out; simp [stripGo]
  | cons c rest ih =>
    intro state prevState prevChar out
    have hst := stripStep_length state prevState prevChar (rest.headD (Char.ofNat 0)) c out
    calc (stripGo state prevState prevChar out (c :: rest)).length
        ≤ (stripStep state prevState prevChar (rest.headD (Char.ofNat 0)) c out).2.2.length
            + rest.length := by
          simp only [stripGo]; exact ih _ _ _ _
      _ ≤ out.length + (c :: rest).length := by simp only [List.length_cons]; omega

/-- C10: `stripCodeBuffer` rewrites its buffer strictly in place without
overrunning it.  From any intermediate loop state, the characters written
never outnumber the characters written so far plus the characters still
to be read (the write cursor `pos` never passes the read cursor `i`), so
in particular the function never writes at or beyond the original
terminating NUL and the output is at most as long as the input. -/
theorem stripCodeBuffer_no_overrun :
    (∀ (state prevState : ParseState) (prevChar : Char) (out l : List Char),
       (stripGo state prevState prevChar out l).length ≤ out.length + l.length) ∧
    (∀ buf : List Char, (stripCodeBuffer buf).length ≤ buf.length) := by
  constructor
  · intro state prevState prevChar out l; exact stripGo_length l state prevState prevChar out
  · intro buf
    have h := stripGo_length buf st_none_t st_none_t (Char.ofNat 0) []
    simpa using h

/-! ### C1: shape of `getArglistFromStr` results -/

theorem parenDepth_nil : parenDepth [] = 0 := rfl

theorem parenDepth_cons (c : Char) (l : List Char) :
    parenDepth (c :: l) = pweight c + parenDepth l := by
  simp [parenDepth]

/-- Behaviour of the balanced-parenthesis scan, entered at nesting level
`lvl ≥ 1`: every proper prefix of the returned span keeps the running
depth above `-lvl`, the whole span's depth is at least `-lvl`, and the
depth reaches `-lvl` exactly when the scan found the balancing `)` — in
which case the span ends with `)`. -/
theorem arglistScan_spec (t : List Char) : ∀ lvl : Nat, 1 ≤ lvl →
    (∀ n : Nat, n < (arglistScan lvl t).length →
       -(lvl : Int) < parenDepth ((arglistScan lvl t).take n)) ∧
    -(lvl : Int) ≤ parenDepth (arglistScan lvl t) ∧
    (parenDepth (arglistScan lvl t) = -(lvl : Int) →
       (arglistScan lvl t).getLast? = some ')') := by
  induction t with
  | nil =>
    intro lvl hlvl
    refine ⟨by simp [arglistScan], by simp [arglistScan, parenDepth_nil], ?_⟩
    intro h
    simp only [arglistScan, parenDepth_nil] at h
    omega
  | cons c rest ih =>
    intro lvl hlvl
    by_cases hz : (if c = '(' then lvl + 1 else if c = ')' then lvl - 1 else lvl) = 0
    · -- the scan closes here: c = ')' and lvl = 1
      have hcp : c ≠ '(' := by intro h; simp [h] at hz
      have hc' : c = ')' := by
        by_contra h; simp [hcp, h] at hz; omega
      have hl1 : lvl = 1 := by simp [hcp, hc'] at hz; omega
      subst hc' hl1
      have hscan : arglistScan 1 (')' :: rest) = [')'] := by
        simp [arglistScan]
      rw [hscan]
      refine ⟨?_, ?_, ?_⟩
      · intro n hn
        simp only [List.length_cons, List.length_nil] at hn
        have hn0 : n = 0 := by omega
        subst hn0
        simp [parenDepth_nil]
      · simp [parenDepth_cons, parenDepth_nil, pweight]
      · intro _; rfl
    · -- the scan continues at level lvl'
      set lvl' : Nat := if c = '(' then lvl + 1 else if c = ')' then lvl - 1 else lvl with hlvl'
      have h1 : 1 ≤ lvl' := Nat.one_le_iff_ne_zero.mpr hz
      have hscan : arglistScan lvl (c :: rest) = c :: arglistScan lvl' rest := by
        rw [arglistScan]; simp only [← hlvl', if_neg hz]
      have hw : (lvl' : Int) = (lvl : Int) + pweight c := by
        by_cases hpo : c = '('
        · simp [hlvl', hpo, pweight]
        · by_cases hpc : c = ')'
          · have : 2 ≤ lvl := by
              rcases Nat.lt_or_ge lvl 2 with h | h
              · exfalso; interval_cases lvl <;> simp [hlvl', hpo, hpc] at hz <;> try omega
              · exact h
            simp only [hlvl', if_neg hpo, if_pos hpc, pweight, if_neg hpo, if_pos hpc]
            omega
          · simp [hlvl', hpo, hpc, pweight]
      obtain ⟨ih1, ih2, ih3⟩ := ih lvl' h1
      rw [hscan]
      refine ⟨?_, ?_, ?_⟩
      · intro n hn
        match n with
        | 0 => simp [parenDepth_nil]; omega
        | Nat.succ m =>
          simp only [List.length_cons, Nat.succ_lt_succ_iff] at hn
          simp only [List.take_succ_cons, parenDepth_cons]
          have := ih1 m hn
          omega
      · rw [parenDepth_cons]
        omega
      · intro hdep
        rw [parenDepth_cons] at hdep
        have hr : parenDepth (arglistScan lvl' rest) = -(lvl' : Int) := by omega
        have hlast := ih3 hr
        match hsc : arglistScan lvl' rest with
        | [] => rw [hsc] at hlast; simp at hlast
        | d :: ds =>
          rw [hsc] at hlast
          rw [List.getLast?_cons_cons]
          exact hlast

/-- C1, amended.  `getArglistFromStr` returns either null or a string
that starts with `(` and whose parenthesis depth stays strictly positive
at every nonempty proper prefix; when the overall depth is zero (the
scan found the balancing parenthesis) the string also ends with `)`.
The string fails to end with `)` exactly when the stripped buffer ran
out before the parentheses balanced, in which case the claimed balance
does not hold.  The contents are not guaranteed comment-free either:
stripping can splice a new `/*` opener out of the characters around a
removed quote section, and it survives in the returned span. -/
theorem getArglistFromStr_shape (buf name s : List Char)
    (h : getArglistFromStr buf name = some s) :
    s.head? = some '(' ∧
    (∀ n : Nat, 0 < n → n < s.length → 0 < parenDepth (s.take n)) ∧
    (parenDepth s = 0 → s.getLast? = some ')') := by
  unfold getArglistFromStr at h
  split at h
  · exact absurd h (by simp)
  · split at h
    · exact absurd h (by simp)
    · rename_i i hi
      split at h
      · exact absurd h (by simp)
      · rename_i j hj
        rw [Option.some_inj] at h
        subst h
        obtain ⟨sp1, sp2, sp3⟩ :=
          arglistScan_spec (((stripCodeBuffer buf).drop i).drop (j + 1)) 1 le_rfl
        refine ⟨rfl, ?_, ?_⟩
        · intro n hn0 hnlen
          have hpw : pweight '(' = 1 := rfl
          match n with
          | 0 => omega
          | Nat.succ m =>
            simp only [List.length_cons, Nat.succ_lt_succ_iff] at hnlen
            rw [List.take_succ_cons, parenDepth_cons, hpw]
            have := sp1 m hnlen
            omega
        · intro hdep
          have hpw : pweight '(' = 1 := rfl
          rw [parenDepth_cons, hpw] at hdep
          have hr : parenDepth (arglistScan 1 (((stripCodeBuffer buf).drop i).drop (j + 1)))
              = -((1 : Nat) : Int) := by push_cast; omega
          have hlast := sp3 hr
          match hsc : arglistScan 1 (((stripCodeBuffer buf).drop i).drop (j + 1)) with
          | [] => rw [hsc] at hlast; simp at hlast
          | d :: ds =>
            rw [hsc] at hlast
            rw [List.getLast?_cons_cons]
            exact hlast

/-- A comment opener `/*` occurring in a string — written from the
claim's words ("contents comment-free") for the counterexample. -/
def hasCommentStart : List Char → Bool
  | '/' :: '*' :: _ => true
  | _ :: rest => hasCommentStart rest
  | [] => false

/-- C1, counterexample to the claim as stated, refuting two of its
conjuncts.  Balance: on the (already comment-free) buffer `f(a` with
name `f` the code returns the string `(a`, which does not end with `)`
and has unbalanced parentheses.  Comment-freedom: on the buffer
`f(/"s"*a*/)` with name `f` the code returns `(/*a*/)`, whose contents
contain the full C comment `/*a*/` — the strip pass removed the quoted
section and spliced the surrounding `/` and `*` into a comment opener
that survives into the returned span. -/
theorem getArglistFromStr_claim_cex :
    (getArglistFromStr ['f', '(', 'a'] ['f'] = some ['(', 'a'] ∧
      argClaimOK ['(', 'a'] = false) ∧
    (getArglistFromStr ['f', '(', '/', '"', 's', '"', '*', 'a', '*', '/', ')'] ['f']
        = some ['(', '/', '*', 'a', '*', '/', ')'] ∧
      hasCommentStart ['(', '/', '*', 'a', '*', '/', ')'] = true) := by
  exact ⟨⟨rfl, rfl⟩, by decide, rfl⟩

/-- Witness for `getArglistFromStr_shape` at a concrete input. -/
theorem getArglistFromStr_shape_witness :
    getArglistFromStr ['f', '(', 'a', ',', 'b', ')', ' ', 'x'] ['f']
        = some ['(', 'a', ',', 'b', ')'] ∧
    (['(', 'a', ',', 'b', ')'] : List Char).head? = some '(' := by
  refine ⟨by decide, (getArglistFromStr_shape ['f', '(', 'a', ',', 'b', ')', ' ', 'x'] ['f']
    ['(', 'a', ',', 'b', ')'] (by decide)).1⟩

/-! ### C5: idempotence of `stripCodeBuffer`

The claim fails in general: a quote or backslash can hide the second
character of a comment opener from the first pass, so the first pass can
*create* a comment opener (for example `/"a"*` strips to `/*`, which
strips to the empty string).  On inputs free of quote and backslash
characters the pass is idempotent; this is proved by showing that every
output of the first pass is copied verbatim by a second pass. -/

/-- A character the stripped output may contain: no quotes, no
backslash, and no whitespace other than a plain space. -/
def okCh (c : Char) : Bool :=
  !(c = '"') && !(c = '\'') && !(c = '\\') && (!cIsSpace c || c = ' ')

/-- All characters of the list satisfy `okCh`. -/
def okChars (l : List Char) : Bool := l.all okCh

/-- An adjacent pair the stripped output may contain: no double space,
no `/*`, no `//`. -/
def adjOK (a b : Char) : Bool :=
  !(a = ' ' && b = ' ') && !(a = '/' && b = '*') && !(a = '/' && b = '/')

/-- Every adjacent pair of the list satisfies `adjOK`. -/
def chainOK : List Char → Bool
  | [] => true
  | [_] => true
  | a :: b :: t => adjOK a b && chainOK (b :: t)

/-- The list does not start with a space. -/
def noLead : List Char → Bool
  | [] => true
  | c :: _ => !(c = ' ')

/-- `adjOK` between the last character of `out` (if any) and `w`. -/
def lastAdj (out : List Char) (w : Char) : Bool :=
  match out.getLast? with
  | none => true
  | some g => adjOK g w

/-- The amended C5 hypothesis: the input contains no double quote, no
single quote and no backslash. -/
def specialsFree (l : List Char) : Bool :=
  l.all fun c => !(c = '"') && !(c = '\'') && !(c = '\\')

theorem chainOK_append : ∀ (out : List Char) (w : Char),
    chainOK (out ++ [w]) = (chainOK out && lastAdj out w)
  | [], w => by simp [chainOK, lastAdj]
  | [a], w => by simp [chainOK, lastAdj]
  | a :: b :: t, w => by
    have ih := chainOK_append (b :: t) w
    have hl : lastAdj (a :: b :: t) w = lastAdj (b :: t) w := by
      unfold lastAdj
      rw [List.getLast?_cons_cons]
    simp only [List.cons_append] at ih ⊢
    simp only [chainOK]
    rw [ih, hl, Bool.and_assoc]

theorem chainOK_tail {a : Char} {l : List Char} (h : chainOK (a :: l) = true) :
    chainOK l = true := by
  match l with
  | [] => rfl
  | b :: t => rw [chainOK, Bool.and_eq_true] at h; exact h.2

theorem okChars_append {out : List Char} {w : Char} (ho : okChars out = true)
    (hw : okCh w = true) : okChars (out ++ [w]) = true := by
  simp [okChars, List.all_append] at *
  exact ⟨ho, hw⟩

theorem noLead_append {out : List Char} {w : Char} (h : noLead out = true)
    (hw : w ≠ ' ') : noLead (out ++ [w]) = true := by
  match out with
  | [] => simpa [noLead] using hw
  | c :: t =>
    simp only [noLead] at h
    simpa [List.cons_append, noLead] using h

theorem getLast?_append_single (out : List Char) (w : Char) :
    (out ++ [w]).getLast? = some w := by
  simp [List.getLast?_concat]

theorem putSpace_okChars {out : List Char} (h : okChars out = true) :
    okChars (putSpace out) = true := by
  unfold putSpace
  split
  · exact okChars_append h rfl
  · exact h

theorem putSpace_chainOK {out : List Char} (h : chainOK out = true) :
    chainOK (putSpace out) = true := by
  unfold putSpace
  split
  · rename_i hg
    rw [chainOK_append, h, Bool.true_and]
    unfold lastAdj
    match hgl : out.getLast? with
    | none => rfl
    | some g =>
      rw [hgl] at hg
      have hgs : ¬ g = ' ' := fun he => hg.2 (by rw [he])
      simp [adjOK, hgs]
  · exact h

theorem noLead_append_ne {out : List Char} {w : Char} (hne : out ≠ [])
    (h : noLead out = true) : noLead (out ++ [w]) = true := by
  match out with
  | [] => exact absurd rfl hne
  | c :: t =>
    simp only [noLead] at h
    simpa [List.cons_append, noLead] using h

theorem putSpace_noLead {out : List Char} (h : noLead out = true) :
    noLead (putSpace out) = true := by
  unfold putSpace
  split
  · rename_i hg
    exact noLead_append_ne hg.1 h
  · exact h

theorem putSpace_getLast_ne_slash (out : List Char) :
    (putSpace out).getLast? ≠ some '/' := by
  unfold putSpace
  split
  · rw [getLast?_append_single]; simp
  · rename_i hg
    rcases Decidable.not_and_iff_or_not.mp hg with h | h
    · have : out = [] := Decidable.not_not.mp h
      rw [this]; simp
    · have : out.getLast? = some ' ' := Decidable.not_not.mp h
      rw [this]; simp

/-- States the strip machine can be in when the input holds no quote
and no backslash characters. -/
def StInv (s : ParseState) : Prop :=
  s = st_none_t ∨ s = st_c_comment_t ∨ s = st_cpp_comment_t

/-- Well-formedness of the written prefix: all characters writable, all
adjacent pairs writable, no leading space. -/
def OutInv (out : List Char) : Prop :=
  okChars out = true ∧ chainOK out = true ∧ noLead out = true

/-- Invariant preservation for one `stripStep` on quote/backslash-free
input.  The final clause tracks the only step at which the prefix ends
with `/`: immediately after `/` was written, when the lookahead was
neither `/` nor `*`. -/
theorem stripStep_inv (state prevState : ParseState) (prevChar nextChar c : Char)
    (out : List Char)
    (hst : StInv state) (hok : okChars out = true) (hch : chainOK out = true)
    (hnl : noLead out = true)
    (hsl : out.getLast? = some '/' → state = st_none_t ∧ c ≠ '/' ∧ c ≠ '*')
    (hq1 : c ≠ '"') (hq2 : c ≠ '\'') (hq3 : c ≠ '\\') :
    StInv (stripStep state prevState prevChar nextChar c out).1 ∧
    OutInv (stripStep state prevState prevChar nextChar c out).2.2 ∧
    ((stripStep state prevState prevChar nextChar c out).2.2.getLast? = some '/' →
       (stripStep state prevState prevChar nextChar c out).1 = st_none_t ∧
         nextChar ≠ '/' ∧ nextChar ≠ '*') := by
  unfold stripStep
  split_ifs with h1 h2 h3 h4 h5 h6 h7 h8 h9 h10 h11
  · -- '/'-case, none state, lookahead '*': enter C comment
    exact ⟨Or.inr (Or.inl rfl), ⟨hok, hch, hnl⟩,
      fun hg => absurd h1 (hsl hg).2.1⟩
  · -- '/'-case, none state, lookahead '/': enter C++ comment
    exact ⟨Or.inr (Or.inr rfl), ⟨hok, hch, hnl⟩,
      fun hg => absurd h1 (hsl hg).2.1⟩
  · -- '/'-case, none state, ordinary lookahead: write '/'
    refine ⟨Or.inl h2, ⟨okChars_append hok rfl, ?_, noLead_append hnl (by simp)⟩, ?_⟩
    · rw [chainOK_append, hch, Bool.true_and]
      unfold lastAdj
      match hgl : out.getLast? with
      | none => rfl
      | some g =>
        have hgs : ¬ g = '/' := by
          intro he
          exact (hsl (by rw [hgl, he])).2.1 h1
        simp [adjOK, hgs]
    · intro _
      exact ⟨h2, h4, h3⟩
  · -- '/'-case, C-comment state, previous char '*': comment ends
    exact ⟨Or.inl rfl,
      ⟨putSpace_okChars hok, putSpace_chainOK hch, putSpace_noLead hnl⟩,
      fun hg => absurd hg (putSpace_getLast_ne_slash out)⟩
  · -- '/'-case, C-comment state, comment continues
    exact ⟨Or.inr (Or.inl h5), ⟨hok, hch, hnl⟩,
      fun hg => absurd h1 (hsl hg).2.1⟩
  · -- '/'-case, C++-comment state: comment swallows the character
    exact ⟨hst, ⟨hok, hch, hnl⟩,
      fun hg => absurd h1 (hsl hg).2.1⟩
  · -- a backslash cannot occur in quote/backslash-free input
    exact absurd h7.1 hq3
  · -- escape state is unreachable
    rcases hst with h | h | h <;> rw [h] at h8 <;> exact ParseState.noConfusion h8
  · -- newline ends a C++ comment
    exact ⟨Or.inl rfl,
      ⟨putSpace_okChars hok, putSpace_chainOK hch, putSpace_noLead hnl⟩,
      fun hg => absurd hg (putSpace_getLast_ne_slash out)⟩
  · -- whitespace in none state: collapse to one space
    exact ⟨Or.inl h10,
      ⟨putSpace_okChars hok, putSpace_chainOK hch, putSpace_noLead hnl⟩,
      fun hg => absurd hg (putSpace_getLast_ne_slash out)⟩
  · -- ordinary character in none state: copy it
    refine ⟨Or.inl h10, ⟨?_, ?_, ?_⟩, ?_⟩
    · refine okChars_append hok ?_
      simp [okCh, hq1, hq2, hq3, h11]
    · rw [chainOK_append, hch, Bool.true_and]
      unfold lastAdj
      match hgl : out.getLast? with
      | none => rfl
      | some g =>
        have hg2 : g = '/' → c ≠ '*' := by
          intro he
          exact (hsl (by rw [hgl, he])).2.2
        have hcs : ¬ c = ' ' := fun he => h11 (by rw [he]; rfl)
        by_cases hgsl : g = '/'
        · simp [adjOK, hcs, hg2 hgsl, h1]
        · simp [adjOK, hcs, hgsl]
    · exact noLead_append hnl (fun he => h11 (by rw [he]; rfl))
    · intro hg
      rw [getLast?_append_single] at hg
      exact absurd (by injection hg) h1
  · -- ordinary character inside a comment: swallowed
    refine ⟨hst, ⟨hok, hch, hnl⟩, ?_⟩
    intro hg
    exact absurd (hsl hg).1 h10

/-- The written-prefix invariant is preserved along the whole strip run
on quote/backslash-free input. -/
theorem stripGo_inv : ∀ (l : List Char) (state prevState : ParseState) (prevChar : Char)
    (out : List Char),
    specialsFree l = true → StInv state → OutInv out →
    (out.getLast? = some '/' →
       state = st_none_t ∧ l.head? ≠ some '/' ∧ l.head? ≠ some '*') →
    OutInv (stripGo state prevState prevChar out l)
  | [], _, _, _, _, _, _, hout, _ => hout
  | c :: rest, state, prevState, prevChar, out, hsf, hst, hout, hsl => by
    rw [specialsFree, List.all_cons, Bool.and_eq_true] at hsf
    have hq : c ≠ '"' ∧ c ≠ '\'' ∧ c ≠ '\\' := by simpa [and_assoc] using hsf.1
    have hslc : out.getLast? = some '/' → state = st_none_t ∧ c ≠ '/' ∧ c ≠ '*' := by
      intro hg
      obtain ⟨ha, hb, hd⟩ := hsl hg
      exact ⟨ha, fun he => hb (by rw [List.head?_cons, he]),
        fun he => hd (by rw [List.head?_cons, he])⟩
    obtain ⟨s1, s2, s3⟩ := stripStep_inv state prevState prevChar
      (rest.headD (Char.ofNat 0)) c out hst hout.1 hout.2.1 hout.2.2 hslc
      hq.1 hq.2.1 hq.2.2
    simp only [stripGo]
    refine stripGo_inv rest _ _ c _ hsf.2 s1 s2 ?_
    intro hg
    obtain ⟨ha, hb, hd⟩ := s3 hg
    refine ⟨ha, ?_, ?_⟩
    · match rest with
      | [] => simp
      | d :: t =>
        rw [List.headD_cons] at hb
        simpa using hb
    · match rest with
      | [] => simp
      | d :: t =>
        rw [List.headD_cons] at hd
        simpa using hd

/-- One step of a second pass over well-formed output copies the
character verbatim and stays in the none state. -/
theorem stripStep_copy (c : Char) (rest : List Char) (prevState : ParseState)
    (prevChar : Char) (out : List Char)
    (hq1 : ¬ c = '"') (hq2 : ¬ c = '\'') (hq3 : ¬ c = '\\')
    (hsp : cIsSpace c = false ∨ c = ' ')
    (hnx : c = '/' → rest.headD (Char.ofNat 0) ≠ '*' ∧ rest.headD (Char.ofNat 0) ≠ '/')
    (hps : c = ' ' → putSpace out = out ++ [' ']) :
    stripStep st_none_t prevState prevChar (rest.headD (Char.ofNat 0)) c out
      = (st_none_t, prevState, out ++ [c]) := by
  unfold stripStep
  split_ifs with h1 h2 h3 h4 h5 h6 h7 h8 h9 h10 h11
  · exact absurd h3 (hnx h1).1
  · exact absurd h4 (hnx h1).2
  · rw [h1]
  · exact absurd rfl h2
  · exact absurd rfl h2
  · exact absurd rfl h2
  · exact absurd h7.1 hq3
  · exact h8.elim
  · exact h9.2.elim
  · rcases hsp with h | h
    · rw [h] at h11; exact absurd h11 (by simp)
    · rw [hps h, h]
  · rfl
  · exact absurd rfl h10

/-- A second pass copies verbatim any list that satisfies the output
invariants of the first pass. -/
theorem stripGo_copy : ∀ (y : List Char) (prevState : ParseState) (prevChar : Char)
    (out : List Char),
    okChars y = true → chainOK y = true →
    (out = [] → noLead y = true) →
    (∀ g, out.getLast? = some g → ∀ h, y.head? = some h → adjOK g h = true) →
    stripGo st_none_t prevState prevChar out y = out ++ y
  | [], _, _, out, _, _, _, _ => by simp [stripGo]
  | c :: rest, prevState, prevChar, out, hok, hch, hnl, hadj => by
    rw [okChars, List.all_cons, Bool.and_eq_true] at hok
    have hq : ¬ c = '"' ∧ ¬ c = '\'' ∧ ¬ c = '\\' ∧ (cIsSpace c = false ∨ c = ' ') := by
      have := hok.1
      simp only [okCh, Bool.and_eq_true, Bool.not_eq_true', Bool.or_eq_true,
        Bool.not_eq_true, decide_eq_false_iff_not, decide_eq_true_eq] at this
      tauto
    have hnx : c = '/' → rest.headD (Char.ofNat 0) ≠ '*' ∧ rest.headD (Char.ofNat 0) ≠ '/' := by
      intro hc
      match rest with
      | [] => exact ⟨by decide, by decide⟩
      | d :: t =>
        rw [chainOK, Bool.and_eq_true] at hch
        have had := hch.1
        rw [hc] at had
        rw [List.headD_cons]
        constructor
        · intro he; rw [he] at had; exact absurd had (by decide)
        · intro he; rw [he] at had; exact absurd had (by decide)
    have hps : c = ' ' → putSpace out = out ++ [' '] := by
      intro hc
      have hone : out ≠ [] := by
        intro he
        have := hnl he
        rw [hc] at this
        exact absurd this (by simp [noLead])
      have hglne : out.getLast? ≠ some ' ' := by
        intro hg
        have := hadj ' ' hg c (by rw [List.head?_cons])
        rw [hc] at this
        exact absurd this (by decide)
      unfold putSpace
      rw [if_pos ⟨hone, hglne⟩]
    simp only [stripGo]
    rw [stripStep_copy c rest prevState prevChar out hq.1 hq.2.1 hq.2.2.1 hq.2.2.2 hnx hps]
    have ih := stripGo_copy rest prevState c (out ++ [c]) hok.2 (chainOK_tail hch)
      (fun habs => absurd habs (by simp))
      (by
        intro g hg h hh
        rw [getLast?_append_single] at hg
        have hgc : g = c := by injection hg with hgc; exact hgc.symm
        subst hgc
        match rest, hh with
        | d :: t, hh =>
          have hd : h = d := by
            rw [List.head?_cons] at hh; injection hh with hd; exact hd.symm
          subst hd
          rw [chainOK, Bool.and_eq_true] at hch
          exact hch.1)
    rw [ih, List.append_assoc, List.singleton_append]

/-- C5, amended: on buffers containing no double-quote, single-quote or
backslash character, `stripCodeBuffer` is idempotent.  (In general the
claim fails: a quote or backslash hides the second character of a
comment opener from the first pass, so stripping can create a new
comment opener.) -/
theorem stripCodeBuffer_idem (buf : List Char) (h : specialsFree buf = true) :
    stripCodeBuffer (stripCodeBuffer buf) = stripCodeBuffer buf := by
  have hinv : OutInv (stripCodeBuffer buf) := by
    refine stripGo_inv buf st_none_t st_none_t (Char.ofNat 0) [] h (Or.inl rfl)
      ⟨rfl, rfl, rfl⟩ ?_
    intro hg
    simp at hg
  obtain ⟨hok, hch, hnl⟩ := hinv
  have hcopy := stripGo_copy (stripCodeBuffer buf) st_none_t (Char.ofNat 0) []
    hok hch (fun _ => hnl) (by intro g hg; simp at hg)
  unfold stripCodeBuffer
  simpa using hcopy

/-- C5, counterexample to the claim as stated: stripping `/"a"*` yields
`/*` (the string literal hid the `*` from the first pass), and stripping
again yields the empty buffer. -/
theorem stripCodeBuffer_idem_cex :
    stripCodeBuffer (stripCodeBuffer ['/', '"', 'a', '"', '*'])
      ≠ stripCodeBuffer ['/', '"', 'a', '"', '*'] := by decide

/-- Witness for `stripCodeBuffer_idem` at a concrete input. -/
theorem stripCodeBuffer_idem_witness :
    specialsFree ['a', ' ', '/', '*', 'c', '*', '/', ' ', 'b'] = true ∧
    stripCodeBuffer (stripCodeBuffer ['a', ' ', '/', '*', 'c', '*', '/', ' ', 'b'])
      = stripCodeBuffer ['a', ' ', '/', '*', 'c', '*', '/', ' ', 'b'] :=
  ⟨by decide, stripCodeBuffer_idem ['a', ' ', '/', '*', 'c', '*', '/', ' ', 'b'] (by decide)⟩

/-! ### Stream world: constants and character classes

The stream layer works over C `int` characters: bytes `0..255` from the
external reader, `EOF = -1` at end of stream, and the two sentinel
symbols.  `STRING_SYMBOL` and `CHAR_SYMBOL` come from `get.h`, which is
not under `src/`; modelled from the spec, which requires two fixed,
distinct non-ASCII values different from EOF (ctags defines them as
`'S' + 0x80` and `'C' + 0x80`). -/

def EOF : Int := -1

def TAB : Int := 9

def NEWLINE : Int := 10

def SPACE : Int := 32

def DOUBLE_QUOTE : Int := 34

def SINGLE_QUOTE : Int := 39

def BACKSLASH : Int := 92

def STRING_SYMBOL : Int := 83 + 128

def CHAR_SYMBOL : Int := 67 + 128

def MaxCppNestingLevel : Nat := 20

def MaxDirectiveName : Nat := 10

/-- C `isalpha` on ASCII. -/
def isalpha (c : Int) : Bool := (65 ≤ c && c ≤ 90) || (97 ≤ c && c ≤ 122)

/-- C `isalnum` on ASCII. -/
def isalnum (c : Int) : Bool := isalpha c || (48 ≤ c && c ≤ 57)

/-- Modelled from the spec: the `isident` macro (letters, digits and
underscore) lives in a ctags header that is not under `src/`. -/
def isident (c : Int) : Bool := isalnum c || c = 95

/-- Modelled from the spec: the `isident1` macro (identifier-starting
characters: letters and underscore). -/
def isident1 (c : Int) : Bool := isalpha c || c = 95

/-- The `isspacetab` macro of get.c:29. -/
def isspacetab (c : Int) : Bool := c = SPACE || c = TAB

/-- C `toupper` on ASCII. -/
def toupperI (c : Int) : Int := if 97 ≤ c && c ≤ 122 then c - 32 else c

/-! ### Stream world: the external reader (out-of-scope collaborator)

`getcFromInputFile`, `fileUngetc` and `fileGetNthPrevC` belong to the
file-reading module, an external collaborator of get.c.  They are
modelled as a stream: `input` is the list of characters still to be
read (push-backs are prepended), `hist` records consumed characters,
most recent first, for the three-byte look-behind used by raw-string
recognition. -/

structure FileSt where
  input : List Int
  hist : List Int
deriving DecidableEq, Repr

def getcFromInputFile (f : FileSt) : Int × FileSt :=
  match f.input with
  | [] => (EOF, f)
  | c :: rest => (c, ⟨rest, c :: f.hist⟩)

def fileUngetc (c : Int) (f : FileSt) : FileSt :=
  ⟨c :: f.input, f.hist⟩

/-- `fileGetNthPrevC n dflt`: the byte `n` positions before the read
head (`hist.head` is the byte just consumed, i.e. one position before
the head), or `dflt` when unavailable. -/
def fileGetNthPrevC (n : Nat) (dflt : Int) (f : FileSt) : Int :=
  f.hist.getD n dflt

/-! ### Stream world: preprocessor state (get.c:41-95)

`braceFormat` models the file-global `BraceFormat` (get.c:81), `if0`
models the external option `Option.if0`, and `tags` records the macro
names handed to the external tag sink `makeTagEntry` (the sink's own
filtering options are outside get.c). -/

structure conditionalInfo where
  ignoreAllBranches : Bool
  singleBranch : Bool
  branchChosen : Bool
  ignoring : Bool
deriving DecidableEq, Repr

inductive eState where
  | DRCTV_NONE
  | DRCTV_DEFINE
  | DRCTV_HASH
  | DRCTV_IF
  | DRCTV_PRAGMA
  | DRCTV_UNDEF
deriving DecidableEq, Repr

structure cppState where
  ungetch : Int
  ungetch2 : Int
  resolveRequired : Bool
  hasAtLiteralStrings : Bool
  hasCxxRawLiteralStrings : Bool
  dState : eState
  accept : Bool
  dName : List Int
  nestLevel : Nat
  ifdef : List conditionalInfo
  braceFormat : Bool
  if0 : Bool
  tags : List (List Int)
deriving DecidableEq, Repr

def defaultConditional : conditionalInfo :=
  { ignoreAllBranches := false, singleBranch := false,
    branchChosen := false, ignoring := false }

/-- `cppInit` (get.c:111-135).  The `ifdef` array is the zero-filled
static array with frame 0 re-initialised to all-false. -/
def cppInit (braceFormat hasAtLiteralStrings hasCxxRawLiteralStrings if0 : Bool) : cppState :=
  { ungetch := 0, ungetch2 := 0, resolveRequired := false,
    hasAtLiteralStrings := hasAtLiteralStrings,
    hasCxxRawLiteralStrings := hasCxxRawLiteralStrings,
    dState := eState.DRCTV_NONE, accept := true, dName := [], nestLevel := 0,
    ifdef := List.replicate MaxCppNestingLevel defaultConditional,
    braceFormat := braceFormat, if0 := if0, tags := [] }

/-- `cppUngetc` (get.c:166-171).  The debug-build assertion
`Assert(Cpp.ungetch2 == '\0')` has no release-build effect. -/
def cppUngetc (c : Int) (st : cppState) : cppState :=
  { st with ungetch2 := st.ungetch, ungetch := c }

/-- `isIgnore` (get.c:217-220). -/
def isIgnore (st : cppState) : Bool :=
  (st.ifdef.getD st.nestLevel defaultConditional).ignoring

/-- `setIgnore` (get.c:222-225); returns the stored value. -/
def setIgnore (ignore : Bool) (st : cppState) : Bool × cppState :=
  let fr := st.ifdef.getD st.nestLevel defaultConditional
  (ignore,
   { st with ifdef := st.ifdef.set st.nestLevel { fr with ignoring := ignore } })

/-- `isIgnoreBranch` (get.c:227-248). -/
def isIgnoreBranch (st : cppState) : Bool × cppState :=
  let st' :=
    if st.resolveRequired ∧ ¬ st.braceFormat then
      let fr := st.ifdef.getD st.nestLevel defaultConditional
      { st with ifdef := st.ifdef.set st.nestLevel { fr with singleBranch := true } }
    else st
  let fr' := st'.ifdef.getD st'.nestLevel defaultConditional
  (fr'.ignoreAllBranches || (fr'.branchChosen && fr'.singleBranch), st')

/-- `chooseBranch` (get.c:250-259). -/
def chooseBranch (st : cppState) : cppState :=
  if ¬ st.braceFormat then
    let fr := st.ifdef.getD st.nestLevel defaultConditional
    let fr' := { fr with branchChosen := fr.singleBranch || st.resolveRequired }
    { st with ifdef := st.ifdef.set st.nestLevel fr' }
  else st

/-- `pushConditional` (get.c:264-290).  The C code assigns
`ifdef->singleBranch = Cpp.resolveRequired` and then reads it back in
the `ignoring` expression, so `resolveRequired` appears directly there. -/
def pushConditional (firstBranchChosen : Bool) (st : cppState) : Bool × cppState :=
  let ignoreAllBranches := isIgnore st
  if st.nestLevel < MaxCppNestingLevel - 1 then
    let nl := st.nestLevel + 1
    let fr : conditionalInfo :=
      { ignoreAllBranches := ignoreAllBranches,
        singleBranch := st.resolveRequired,
        branchChosen := firstBranchChosen,
        ignoring := ignoreAllBranches ||
          (!firstBranchChosen && !st.braceFormat && (st.resolveRequired || !st.if0)) }
    (fr.ignoring, { st with nestLevel := nl, ifdef := st.ifdef.set nl fr })
  else
    (false, st)

/-- `popConditional` (get.c:294-300). -/
def popConditional (st : cppState) : Bool × cppState :=
  let st' := if st.nestLevel > 0 then { st with nestLevel := st.nestLevel - 1 } else st
  (isIgnore st', st')

/-! ### C3: the conditional-stack depth invariant -/

/-- A sequence of conditional-stack operations. -/
inductive CondOp where
  | push (firstBranchChosen : Bool)
  | pop
deriving DecidableEq, Repr

/-- Run a sequence of `pushConditional`/`popConditional` calls. -/
def runCondOps (st : cppState) : List CondOp → cppState
  | [] => st
  | CondOp.push b :: ops => runCondOps (pushConditional b st).2 ops
  | CondOp.pop :: ops => runCondOps (popConditional st).2 ops

theorem pushConditional_nestLevel_le {st : cppState} (b : Bool)
    (h : st.nestLevel ≤ MaxCppNestingLevel - 1) :
    (pushConditional b st).2.nestLevel ≤ MaxCppNestingLevel - 1 := by
  unfold pushConditional
  split
  · rename_i hlt
    simpa using hlt
  · exact h

theorem popConditional_nestLevel_le {st : cppState}
    (h : st.nestLevel ≤ MaxCppNestingLevel - 1) :
    (popConditional st).2.nestLevel ≤ MaxCppNestingLevel - 1 := by
  unfold popConditional
  split <;> simp <;> omega

theorem runCondOps_nestLevel_le : ∀ (ops : List CondOp) (st : cppState),
    st.nestLevel ≤ MaxCppNestingLevel - 1 →
    (runCondOps st ops).nestLevel ≤ MaxCppNestingLevel - 1
  | [], st, h => h
  | CondOp.push b :: ops, st, h =>
    runCondOps_nestLevel_le ops _ (pushConditional_nestLevel_le b h)
  | CondOp.pop :: ops, st, h =>
    runCondOps_nestLevel_le ops _ (popConditional_nestLevel_le h)

/-- C3: from `cppInit`, any sequence of `pushConditional` and
`popConditional` calls keeps `nestLevel` in `[0, 19]`; a push at
`nestLevel = 19` leaves the whole state (frames included) unchanged and
a pop at `nestLevel = 0` leaves it at 0. -/
theorem conditional_nesting_invariant :
    (∀ (bf hA hR i0 : Bool) (ops : List CondOp),
       (runCondOps (cppInit bf hA hR i0) ops).nestLevel ≤ MaxCppNestingLevel - 1) ∧
    (∀ (st : cppState) (b : Bool), st.nestLevel = MaxCppNestingLevel - 1 →
       (pushConditional b st).2 = st) ∧
    (∀ st : cppState, st.nestLevel = 0 → (popConditional st).2.nestLevel = 0) := by
  refine ⟨?_, ?_, ?_⟩
  · intro bf hA hR i0 ops
    exact runCondOps_nestLevel_le ops _ (by simp [cppInit])
  · intro st b h
    unfold pushConditional
    rw [if_neg (by omega)]
  · intro st h
    unfold popConditional
    rw [if_neg (by omega)]
    exact h

/-- Witness for `conditional_nesting_invariant` at concrete states. -/
theorem conditional_nesting_invariant_witness :
    ((cppInit false false false false).nestLevel = 0 ∧
     (popConditional (cppInit false false false false)).2.nestLevel = 0) ∧
    (runCondOps (cppInit false false false false)
        (List.replicate MaxCppNestingLevel (CondOp.push true))).nestLevel
        = MaxCppNestingLevel - 1 ∧
    (pushConditional true (runCondOps (cppInit false false false false)
        (List.replicate MaxCppNestingLevel (CondOp.push true)))).2
      = runCondOps (cppInit false false false false)
          (List.replicate MaxCppNestingLevel (CondOp.push true)) :=
  ⟨⟨rfl, conditional_nesting_invariant.2.2 (cppInit false false false false) rfl⟩,
   by decide,
   conditional_nesting_invariant.2.1 _ true (by decide)⟩

/-! ### C4: the push formula for the `ignoring` flag -/

/-- C4: pushing below the cap stores `singleBranch = resolveRequired`
and `ignoring = parent.ignoring OR (NOT firstBranchChosen AND NOT
BraceFormat AND (singleBranch OR NOT Option.if0))`, and returns the
stored `ignoring`. -/
theorem pushConditional_spec (st : cppState) (b : Bool)
    (hlen : st.ifdef.length = MaxCppNestingLevel)
    (hlev : st.nestLevel < MaxCppNestingLevel - 1) :
    ((pushConditional b st).2.ifdef.getD (st.nestLevel + 1)
        defaultConditional).singleBranch = st.resolveRequired ∧
    ((pushConditional b st).2.ifdef.getD (st.nestLevel + 1)
        defaultConditional).ignoring
      = (isIgnore st || (!b && !st.braceFormat && (st.resolveRequired || !st.if0))) ∧
    (pushConditional b st).1
      = ((pushConditional b st).2.ifdef.getD (st.nestLevel + 1)
          defaultConditional).ignoring ∧
    (pushConditional b st).2.nestLevel = st.nestLevel + 1 := by
  have hin : st.nestLevel + 1 < st.ifdef.length := by
    rw [hlen]; unfold MaxCppNestingLevel at *; omega
  unfold pushConditional
  rw [if_pos hlev]
  have hget : (st.ifdef.set (st.nestLevel + 1)
      { ignoreAllBranches := isIgnore st, singleBranch := st.resolveRequired,
        branchChosen := b,
        ignoring := isIgnore st ||
          (!b && !st.braceFormat && (st.resolveRequired || !st.if0)) }).getD
      (st.nestLevel + 1) defaultConditional
      = { ignoreAllBranches := isIgnore st, singleBranch := st.resolveRequired,
          branchChosen := b,
          ignoring := isIgnore st ||
            (!b && !st.braceFormat && (st.resolveRequired || !st.if0)) } := by
    rw [List.getD_eq_getElem?_getD, List.getElem?_set_self (by omega), Option.getD_some]
  exact ⟨by rw [hget], by rw [hget], by rw [hget], rfl⟩

/-- Witness for `pushConditional_spec` at a concrete state. -/
theorem pushConditional_spec_witness :
    ((cppInit false false false false).ifdef.length = MaxCppNestingLevel ∧
     (cppInit false false false false).nestLevel < MaxCppNestingLevel - 1) ∧
    ((pushConditional false (cppInit false false false false)).2.ifdef.getD
        ((cppInit false false false false).nestLevel + 1)
        defaultConditional).singleBranch
      = (cppInit false false false false).resolveRequired ∧
    ((pushConditional false (cppInit false false false false)).2.ifdef.getD
        ((cppInit false false false false).nestLevel + 1)
        defaultConditional).ignoring
      = (isIgnore (cppInit false false false false) ||
          (!false && !(cppInit false false false false).braceFormat &&
            ((cppInit false false false false).resolveRequired ||
              !(cppInit false false false false).if0))) ∧
    (pushConditional false (cppInit false false false false)).1
      = ((pushConditional false (cppInit false false false false)).2.ifdef.getD
          ((cppInit false false false false).nestLevel + 1)
          defaultConditional).ignoring ∧
    (pushConditional false (cppInit false false false false)).2.nestLevel
      = (cppInit false false false false).nestLevel + 1 :=
  ⟨⟨by decide, by decide⟩,
   pushConditional_spec (cppInit false false false false) false (by decide) (by decide)⟩

/-! ### Stream world: comment and string skippers (get.c:432-620) -/

theorem getc_le (f : FileSt) :
    (getcFromInputFile f).2.input.length ≤ f.input.length := by
  match f with
  | ⟨[], h⟩ => simp [getcFromInputFile]
  | ⟨c :: rest, h⟩ => simp [getcFromInputFile]

theorem getc_lt (f : FileSt) (h : (getcFromInputFile f).1 ≠ EOF) :
    (getcFromInputFile f).2.input.length < f.input.length := by
  match f with
  | ⟨[], hh⟩ => exact absurd rfl h
  | ⟨c :: rest, hh⟩ => simp [getcFromInputFile]

theorem getc_cases (f : FileSt) :
    ((getcFromInputFile f).1 = EOF ∧ (getcFromInputFile f).2 = f) ∨
      (getcFromInputFile f).2.input.length < f.input.length := by
  match f with
  | ⟨[], hh⟩ => left; exact ⟨rfl, rfl⟩
  | ⟨c :: rest, hh⟩ => right; simp [getcFromInputFile]

/-- The `Comment` enum of get.c:34. -/
inductive Comment where
  | COMMENT_NONE
  | COMMENT_C
  | COMMENT_CPLUS
  | COMMENT_D
deriving DecidableEq, Repr

/-- `isComment` (get.c:435-452): called after a `/` was read; peeks one
character to classify the comment kind, pushing it back on no match. -/
def isComment (f : FileSt) : Comment × FileSt :=
  let r := getcFromInputFile f
  if r.1 = 42 then (Comment.COMMENT_C, r.2)
  else if r.1 = 47 then (Comment.COMMENT_CPLUS, r.2)
  else if r.1 = 43 then (Comment.COMMENT_D, r.2)
  else (Comment.COMMENT_NONE, fileUngetc r.1 r.2)

/-- The while-loop of `skipOverCComment` (get.c:457-479), with the
current character as a parameter. -/
def skipOverCCommentLoop (c : Int) (f : FileSt) : Int × FileSt :=
  if hEOF : c = EOF then (c, f)
  else if hne : ¬ c = 42 then
    let r := getcFromInputFile f
    skipOverCCommentLoop r.1 r.2
  else
    let r := getcFromInputFile f
    if r.1 ≠ 47 then skipOverCCommentLoop r.1 r.2
    else (SPACE, r.2)
termination_by f.input.length + (if c = EOF then 0 else 1)
decreasing_by
  all_goals
    rw [if_neg hEOF]
    rcases getc_cases f with ⟨hE, hEq⟩ | hlt
    · rw [hE, hEq]
      simp
    · have hd : (if (getcFromInputFile f).1 = EOF then (0 : Nat) else 1) ≤ 1 := by
        split <;> omega
      omega

/-- `skipOverCComment` (get.c:457-479): consume until `*/`, replacing
the comment by SPACE, or report EOF. -/
def skipOverCComment (f : FileSt) : Int × FileSt :=
  let r := getcFromInputFile f
  skipOverCCommentLoop r.1 r.2

/-- `skipOverCplusComment` (get.c:483-495): consume until newline
(backslash escapes the next character) or EOF; returns the terminator. -/
def skipOverCplusComment (f : FileSt) : Int × FileSt :=
  let r := getcFromInputFile f
  if h1 : r.1 = EOF then (r.1, r.2)
  else if r.1 = BACKSLASH then
    skipOverCplusComment (getcFromInputFile r.2).2
  else if r.1 = NEWLINE then (r.1, r.2)
  else skipOverCplusComment r.2
termination_by f.input.length
decreasing_by
  · exact lt_of_le_of_lt (getc_le _) (getc_lt f h1)
  · exact getc_lt f h1

/-- The while-loop of `skipOverDComment` (get.c:500-522). -/
def skipOverDCommentLoop (c : Int) (f : FileSt) : Int × FileSt :=
  if hEOF : c = EOF then (c, f)
  else if hne : ¬ c = 43 then
    let r := getcFromInputFile f
    skipOverDCommentLoop r.1 r.2
  else
    let r := getcFromInputFile f
    if r.1 ≠ 47 then skipOverDCommentLoop r.1 r.2
    else (SPACE, r.2)
termination_by f.input.length + (if c = EOF then 0 else 1)
decreasing_by
  all_goals
    rw [if_neg hEOF]
    rcases getc_cases f with ⟨hE, hEq⟩ | hlt
    · rw [hE, hEq]
      simp
    · have hd : (if (getcFromInputFile f).1 = EOF then (0 : Nat) else 1) ≤ 1 := by
        split <;> omega
      omega

/-- `skipOverDComment` (get.c:500-522).  Nested `/+ +/` comments are
not matched (acknowledged limitation in the source). -/
def skipOverDComment (f : FileSt) : Int × FileSt :=
  let r := getcFromInputFile f
  skipOverDCommentLoop r.1 r.2

/-- `skipToEndOfString` (get.c:527-539): consume until an unescaped
`"` or EOF; always returns STRING_SYMBOL. -/
def skipToEndOfString (ignoreBackslash : Bool) (f : FileSt) : Int × FileSt :=
  let r := getcFromInputFile f
  if h1 : r.1 = EOF then (STRING_SYMBOL, r.2)
  else if r.1 = BACKSLASH ∧ ¬ ignoreBackslash then
    skipToEndOfString ignoreBackslash (getcFromInputFile r.2).2
  else if r.1 = DOUBLE_QUOTE then (STRING_SYMBOL, r.2)
  else skipToEndOfString ignoreBackslash r.2
termination_by f.input.length
decreasing_by
  · exact lt_of_le_of_lt (getc_le _) (getc_lt f h1)
  · exact getc_lt f h1

/-- The while-loop of `skipToEndOfChar` (get.c:594-620), carrying the
`count` and `veraBase` locals.  `strchr("DHOB", toupper(c))` is non-null
when `toupper(c)` is one of `D`, `H`, `O`, `B`, or NUL (a NUL matches
the terminator of the literal). -/
def skipToEndOfCharLoop (count : Nat) (veraBase : Int) (f : FileSt) : Int × FileSt :=
  let r := getcFromInputFile f
  if h1 : r.1 = EOF then (CHAR_SYMBOL, r.2)
  else if r.1 = BACKSLASH then
    skipToEndOfCharLoop (count + 1) veraBase (getcFromInputFile r.2).2
  else if r.1 = SINGLE_QUOTE then (CHAR_SYMBOL, r.2)
  else if r.1 = NEWLINE then (CHAR_SYMBOL, fileUngetc r.1 r.2)
  else if count + 1 = 1 ∧ (toupperI r.1 = 68 ∨ toupperI r.1 = 72 ∨ toupperI r.1 = 79 ∨
      toupperI r.1 = 66 ∨ toupperI r.1 = 0) then
    skipToEndOfCharLoop (count + 1) r.1 r.2
  else if veraBase ≠ 0 ∧ ¬ isalnum r.1 then
    (CHAR_SYMBOL, fileUngetc r.1 r.2)
  else skipToEndOfCharLoop (count + 1) veraBase r.2
termination_by f.input.length
decreasing_by
  · exact lt_of_le_of_lt (getc_le _) (getc_lt f h1)
  · exact getc_lt f h1
  · exact getc_lt f h1

/-- `skipToEndOfChar` (get.c:594-620): always returns CHAR_SYMBOL. -/
def skipToEndOfChar (f : FileSt) : Int × FileSt :=
  skipToEndOfCharLoop 0 0 f

/-- `isCxxRawLiteralDelimiterChar` (get.c:541-545). -/
def isCxxRawLiteralDelimiterChar (c : Int) : Bool :=
  c ≠ 32 && c ≠ 12 && c ≠ 10 && c ≠ 13 && c ≠ 9 && c ≠ 11 &&
    c ≠ 40 && c ≠ 41 && c ≠ BACKSLASH

/-- The inner delimiter-matching while-loop of
`skipToEndOfCxxRawLiteralString` (get.c:574-577): read characters while
they match the remaining delimiter; returns the last character read,
whether the whole delimiter was matched, and the stream.  The C loop
reads one character beyond a full match (short-circuit order). -/
def rawMatch : List Int → FileSt → Int × Bool × FileSt
  | [], f =>
    let r := getcFromInputFile f
    (r.1, true, r.2)
  | d :: ds, f =>
    let r := getcFromInputFile f
    if r.1 = EOF then (r.1, false, r.2)
    else if r.1 = d then rawMatch ds r.2
    else (r.1, false, r.2)

theorem rawMatch_le : ∀ (ds : List Int) (f : FileSt),
    (rawMatch ds f).2.2.input.length ≤ f.input.length ∧
    ((rawMatch ds f).1 ≠ EOF → (rawMatch ds f).2.2.input.length < f.input.length)
  | [], f => ⟨getc_le f, fun h => getc_lt f h⟩
  | d :: ds, f => by
    rw [rawMatch]
    rcases getc_cases f with ⟨hE, hEq⟩ | hlt
    · rw [if_pos hE]
      constructor
      · rw [hEq]
      · intro hne; exact absurd hE hne
    · split
      · exact ⟨le_of_lt hlt, fun _ => hlt⟩
      · split
        · have ih := rawMatch_le ds (getcFromInputFile f).2
          exact ⟨le_trans ih.1 (le_of_lt hlt), fun h => lt_of_le_of_lt (ih.1) hlt⟩
        · exact ⟨le_of_lt hlt, fun _ => hlt⟩

/-- The do-while body of `skipToEndOfCxxRawLiteralString`
(get.c:562-585), carrying the collected delimiter, the `collectDelim`
flag and the current character. -/
def rawBody (delim : List Int) (collectDelim : Bool) (c : Int) (f : FileSt) :
    Int × FileSt :=
  if collectDelim then
    if isCxxRawLiteralDelimiterChar c ∧ delim.length < 16 then
      let r := getcFromInputFile f
      if r.1 = EOF then (STRING_SYMBOL, r.2)
      else rawBody (delim ++ [c]) true r.1 r.2
    else
      let r := getcFromInputFile f
      if r.1 = EOF then (STRING_SYMBOL, r.2)
      else rawBody delim false r.1 r.2
  else if c = 41 then
    let m := rawMatch delim f
    if m.2.1 ∧ m.1 = DOUBLE_QUOTE then (STRING_SYMBOL, m.2.2)
    else
      let f2 := fileUngetc m.1 m.2.2
      let r := getcFromInputFile f2
      if r.1 = EOF then (STRING_SYMBOL, r.2)
      else rawBody delim collectDelim r.1 r.2
  else
    let r := getcFromInputFile f
    if r.1 = EOF then (STRING_SYMBOL, r.2)
    else rawBody delim collectDelim r.1 r.2
termination_by f.input.length
decreasing_by
  · rename_i h1
    exact getc_lt f h1
  · rename_i h1
    exact getc_lt f h1
  · rename_i h1
    have hm := rawMatch_le delim f
    have hone : (rawMatch delim f).1 ≠ EOF := by
      intro hE
      apply h1
      show (getcFromInputFile
        (fileUngetc (rawMatch delim f).1 (rawMatch delim f).2.2)).1 = EOF
      rw [hE]
      rfl
    have hlt := hm.2 hone
    have heq : (getcFromInputFile
        (fileUngetc (rawMatch delim f).1 (rawMatch delim f).2.2)).2.input.length
        = (rawMatch delim f).2.2.input.length := rfl
    show (getcFromInputFile
      (fileUngetc (rawMatch delim f).1 (rawMatch delim f).2.2)).2.input.length
        < f.input.length
    omega
  · rename_i h1
    exact getc_lt f h1

/-- `skipToEndOfCxxRawLiteralString` (get.c:547-588). -/
def skipToEndOfCxxRawLiteralString (f : FileSt) : Int × FileSt :=
  let r := getcFromInputFile f
  if r.1 ≠ 40 ∧ ¬ isCxxRawLiteralDelimiterChar r.1 then
    skipToEndOfString false (fileUngetc r.1 r.2)
  else
    rawBody [] true r.1 r.2

/-! ### C7 and C6: return values of the skippers -/

theorem skipOverCCommentLoop_retval (c : Int) (f : FileSt) :
    (skipOverCCommentLoop c f).1 = SPACE ∨ (skipOverCCommentLoop c f).1 = EOF := by
  induction c, f using skipOverCCommentLoop.induct with
  | case1 f =>
    rw [skipOverCCommentLoop]
    simp only [dif_pos rfl]
    right
    rfl
  | case2 c f hEOF hne r ih =>
    rw [skipOverCCommentLoop]
    simp only [dif_neg hEOF, dif_pos hne]
    exact ih
  | case3 c f hEOF hne r hr ih =>
    rw [skipOverCCommentLoop]
    simp only [dif_neg hEOF, dif_neg hne, if_pos hr]
    exact ih
  | case4 c f hEOF hne r hr =>
    rw [skipOverCCommentLoop]
    simp only [dif_neg hEOF, dif_neg hne, if_neg hr]
    exact Or.inl trivial

theorem skipOverDCommentLoop_retval (c : Int) (f : FileSt) :
    (skipOverDCommentLoop c f).1 = SPACE ∨ (skipOverDCommentLoop c f).1 = EOF := by
  induction c, f using skipOverDCommentLoop.induct with
  | case1 f =>
    rw [skipOverDCommentLoop]
    simp only [dif_pos rfl]
    right
    rfl
  | case2 c f hEOF hne r ih =>
    rw [skipOverDCommentLoop]
    simp only [dif_neg hEOF, dif_pos hne]
    exact ih
  | case3 c f hEOF hne r hr ih =>
    rw [skipOverDCommentLoop]
    simp only [dif_neg hEOF, dif_neg hne, if_pos hr]
    exact ih
  | case4 c f hEOF hne r hr =>
    rw [skipOverDCommentLoop]
    simp only [dif_neg hEOF, dif_neg hne, if_neg hr]
    exact Or.inl trivial

theorem skipOverCplusComment_retval (f : FileSt) :
    (skipOverCplusComment f).1 = NEWLINE ∨ (skipOverCplusComment f).1 = EOF := by
  induction f using skipOverCplusComment.induct with
  | case1 f r h1 =>
    rw [skipOverCplusComment]
    simp only [dif_pos h1]
    right
    exact h1
  | case2 f r h1 hbs ih =>
    rw [skipOverCplusComment]
    simp only [dif_neg h1, if_pos hbs]
    exact ih
  | case3 f r h1 hbs hnl =>
    rw [skipOverCplusComment]
    simp only [dif_neg h1, if_neg hbs, if_pos hnl]
    left
    exact hnl
  | case4 f r h1 hbs hnl ih =>
    rw [skipOverCplusComment]
    simp only [dif_neg h1, if_neg hbs, if_neg hnl]
    exact ih

theorem skipToEndOfString_retval (ignoreBackslash : Bool) (f : FileSt) :
    (skipToEndOfString ignoreBackslash f).1 = STRING_SYMBOL := by
  induction f using skipToEndOfString.induct ignoreBackslash with
  | case1 f r h1 =>
    rw [skipToEndOfString]
    simp only [dif_pos h1]
  | case2 f r h1 hbs ih =>
    rw [skipToEndOfString]
    simp only [dif_neg h1, if_pos hbs]
    exact ih
  | case3 f r h1 hbs hq =>
    rw [skipToEndOfString]
    simp only [dif_neg h1, if_neg hbs, if_pos hq]
  | case4 f r h1 hbs hq ih =>
    rw [skipToEndOfString]
    simp only [dif_neg h1, if_neg hbs, if_neg hq]
    exact ih

theorem skipToEndOfCharLoop_retval (count : Nat) (veraBase : Int) (f : FileSt) :
    (skipToEndOfCharLoop count veraBase f).1 = CHAR_SYMBOL := by
  induction count, veraBase, f using skipToEndOfCharLoop.induct with
  | case1 count veraBase f r h1 =>
    rw [skipToEndOfCharLoop]
    simp only [dif_pos h1]
  | case2 count veraBase f r h1 hbs ih =>
    rw [skipToEndOfCharLoop]
    simp only [dif_neg h1, if_pos hbs]
    exact ih
  | case3 count veraBase f r h1 hbs hq =>
    rw [skipToEndOfCharLoop]
    simp only [dif_neg h1, if_neg hbs, if_pos hq]
  | case4 count veraBase f r h1 hbs hq hnl =>
    rw [skipToEndOfCharLoop]
    simp only [dif_neg h1, if_neg hbs, if_neg hq, if_pos hnl]
  | case5 count veraBase f r h1 hbs hq hnl hvera ih =>
    rw [skipToEndOfCharLoop]
    simp only [dif_neg h1, if_neg hbs, if_neg hq, if_neg hnl, if_pos hvera]
    exact ih
  | case6 count veraBase f r h1 hbs hq hnl hvera hstop =>
    rw [skipToEndOfCharLoop]
    simp only [dif_neg h1, if_neg hbs, if_neg hq, if_neg hnl, if_neg hvera, if_pos hstop]
  | case7 count veraBase f r h1 hbs hq hnl hvera hstop ih =>
    rw [skipToEndOfCharLoop]
    simp only [dif_neg h1, if_neg hbs, if_neg hq, if_neg hnl, if_neg hvera, if_neg hstop]
    exact ih

/-- C7, amended: the C and D comment skippers return SPACE or EOF, but
the C++ comment skipper returns its terminator — NEWLINE or EOF — never
SPACE (the driver pushes the newline back and returns it). -/
theorem comment_skippers_retvals :
    (∀ f : FileSt, (skipOverCComment f).1 = SPACE ∨ (skipOverCComment f).1 = EOF) ∧
    (∀ f : FileSt, (skipOverDComment f).1 = SPACE ∨ (skipOverDComment f).1 = EOF) ∧
    (∀ f : FileSt,
       (skipOverCplusComment f).1 = NEWLINE ∨ (skipOverCplusComment f).1 = EOF) := by
  refine ⟨?_, ?_, skipOverCplusComment_retval⟩
  · intro f
    exact skipOverCCommentLoop_retval _ _
  · intro f
    exact skipOverDCommentLoop_retval _ _

/-- C7, counterexample to the claim as stated: entered after `//`, on
the body `x` followed by a newline, the C++ comment skipper returns
NEWLINE (10), which is neither SPACE nor EOF. -/
theorem comment_skippers_claim_cex :
    (skipOverCplusComment ⟨[120, 10, 121], []⟩).1 = 10 ∧
    (10 : Int) ≠ SPACE ∧ (10 : Int) ≠ EOF := by
  refine ⟨?_, by decide, by decide⟩
  simp [skipOverCplusComment, getcFromInputFile, EOF, NEWLINE, BACKSLASH]

theorem getc_fst_mem (f : FileSt) :
    (getcFromInputFile f).1 = EOF ∨ (getcFromInputFile f).1 ∈ f.input := by
  match f with
  | ⟨[], h⟩ => left; rfl
  | ⟨c :: rest, h⟩ => right; simp [getcFromInputFile]

theorem getc_snd_subset (f : FileSt) :
    ∀ x ∈ (getcFromInputFile f).2.input, x ∈ f.input := by
  match f with
  | ⟨[], h⟩ => intro x hx; exact hx
  | ⟨c :: rest, h⟩ =>
    intro x hx
    simp only [getcFromInputFile] at hx
    exact List.mem_cons_of_mem c hx

/-- The stream holds no `*/` comment terminator: no `*` (42) is
immediately followed by `/` (47).  This is exactly the condition under
which a C comment is unterminated, since `skipOverCComment` makes every
stream character the current character once and checks the follower
whenever the current character is `*`. -/
def noStarSlash : List Int → Bool
  | a :: b :: rest => if a = 42 ∧ b = 47 then false else noStarSlash (b :: rest)
  | _ => true

theorem noStarSlash_tail : ∀ (x : Int) (xs : List Int),
    noStarSlash (x :: xs) = true → noStarSlash xs = true
  | _, [], _ => rfl
  | x, b :: rest, h => by
    rw [noStarSlash] at h
    split at h
    · exact Bool.noConfusion h
    · exact h

theorem getc_noStarSlash : ∀ (f : FileSt), noStarSlash f.input = true →
    noStarSlash (getcFromInputFile f).2.input = true
  | ⟨[], _⟩, hf => hf
  | ⟨x :: rest, _⟩, hf => noStarSlash_tail x rest hf

theorem getc_pair : ∀ (f : FileSt), noStarSlash f.input = true →
    (getcFromInputFile f).1 = 42 → ∀ r, (getcFromInputFile f).2.input ≠ 47 :: r
  | ⟨[], _⟩, _, h42, r, _ => absurd (show (-1 : Int) = 42 from h42) (by decide)
  | ⟨x :: rest, _⟩, hf, h42, r, hr => by
    have hf2 : noStarSlash (x :: rest) = true := hf
    simp only [getcFromInputFile] at h42 hr
    subst h42
    subst hr
    rw [noStarSlash, if_pos ⟨rfl, rfl⟩] at hf2
    exact Bool.noConfusion hf2

theorem getc_head : ∀ (f : FileSt), ¬ (getcFromInputFile f).1 = EOF →
    f.input = (getcFromInputFile f).1 :: (getcFromInputFile f).2.input
  | ⟨[], _⟩, hne => absurd rfl hne
  | ⟨_ :: _, _⟩, _ => rfl

theorem skipOverCCommentLoop_eof (c : Int) (f : FileSt)
    (hf : noStarSlash f.input = true)
    (hc : c = 42 → ∀ r, f.input ≠ 47 :: r) :
    (skipOverCCommentLoop c f).1 = EOF := by
  induction c, f using skipOverCCommentLoop.induct with
  | case1 f =>
    rw [skipOverCCommentLoop]
    simp
  | case2 c f hEOF hne r ih =>
    rw [skipOverCCommentLoop]
    simp only [dif_neg hEOF, dif_pos hne]
    exact ih (getc_noStarSlash f hf) (getc_pair f hf)
  | case3 c f hEOF hne r hr ih =>
    rw [skipOverCCommentLoop]
    simp only [dif_neg hEOF, dif_neg hne, if_pos hr]
    exact ih (getc_noStarSlash f hf) (getc_pair f hf)
  | case4 c f hEOF hne r hr =>
    have hc42 : c = 42 := Decidable.not_not.mp hne
    have h47 : (getcFromInputFile f).1 = 47 := Decidable.not_not.mp hr
    have hne2 : ¬ (getcFromInputFile f).1 = EOF := by rw [h47]; decide
    have hhead := getc_head f hne2
    rw [h47] at hhead
    exact absurd hhead (hc hc42 _)

/-- Premature end of stream inside an unterminated C comment: with no
`*/` pair anywhere in the remaining stream the terminator can never
occur, and the skipper reports EOF. -/
theorem skipOverCComment_eof (f : FileSt) (hf : noStarSlash f.input = true) :
    (skipOverCComment f).1 = EOF := by
  rw [skipOverCComment]
  exact skipOverCCommentLoop_eof _ _ (getc_noStarSlash f hf) (getc_pair f hf)

/-! ### C8: `readDirective` (get.c:175-195) -/

/-- The for-loop of `readDirective`, reading up to `n` further
characters after the first.  `lastc` is the character most recently
examined (the C variable `c`); on EOF or a non-alphabetic character the
loop pushes the terminator back and stops. -/
def rdLoop : Nat → Int → List Int → FileSt → List Int × Int × FileSt
  | 0, lastc, acc, f => (acc, lastc, f)
  | Nat.succ n, _, acc, f =>
    let r := getcFromInputFile f
    if r.1 = EOF ∨ ¬ isalpha r.1 then (acc, r.1, fileUngetc r.1 r.2)
    else rdLoop n r.1 (acc ++ [r.1]) r.2

/-- `readDirective` (get.c:175-195): the first character `c` is stored
unconditionally; up to `maxLength - 2` further alphabetic characters
are read and stored; the stored word is NUL-terminated (implicit in the
list model).  Returns the word, `isspacetab` of the last examined
character, and the stream. -/
def readDirective (c : Int) (maxLength : Nat) (f : FileSt) : List Int × Bool × FileSt :=
  let r := rdLoop (maxLength - 2) c [c] f
  (r.1, isspacetab r.2.1, r.2.2)

theorem rdLoop_spec : ∀ (n : Nat) (lastc : Int) (acc : List Int) (f : FileSt),
    (rdLoop n lastc acc f).1.length ≤ acc.length + n ∧
    acc.length ≤ (rdLoop n lastc acc f).1.length ∧
    ((rdLoop n lastc acc f).2.2.input
        = f.input.drop ((rdLoop n lastc acc f).1.length - acc.length) ∨
     (rdLoop n lastc acc f).2.2.input
        = EOF :: f.input.drop ((rdLoop n lastc acc f).1.length - acc.length))
  | 0, lastc, acc, f => by
    refine ⟨by simp [rdLoop], by simp [rdLoop], ?_⟩
    left
    simp [rdLoop]
  | Nat.succ n, lastc, acc, f => by
    match f with
    | ⟨[], h⟩ =>
      rw [rdLoop]
      simp only [getcFromInputFile]
      rw [if_pos (Or.inl trivial)]
      refine ⟨by simp, by simp, ?_⟩
      right
      simp [fileUngetc]
    | ⟨d :: rest, h⟩ =>
      rw [rdLoop]
      simp only [getcFromInputFile]
      by_cases hcond : d = EOF ∨ ¬ isalpha d
      · rw [if_pos hcond]
        refine ⟨by simp, by simp, ?_⟩
        left
        simp [fileUngetc]
      · rw [if_neg hcond]
        have ih := rdLoop_spec n d (acc ++ [d]) ⟨rest, d :: h⟩
        have hlen : (acc ++ [d]).length = acc.length + 1 := by simp
        refine ⟨?_, ?_, ?_⟩
        · have h1 := ih.1
          rw [hlen] at h1
          omega
        · have h1 := ih.2.1
          rw [hlen] at h1
          omega
        · have hge := ih.2.1
          rw [hlen] at hge
          have hdrop : (List.drop
              ((rdLoop n d (acc ++ [d]) ⟨rest, d :: h⟩).1.length - acc.length)
              (d :: rest) : List Int)
              = List.drop ((rdLoop n d (acc ++ [d]) ⟨rest, d :: h⟩).1.length
                  - (acc ++ [d]).length) rest := by
            rw [hlen]
            have h1 : (rdLoop n d (acc ++ [d]) ⟨rest, d :: h⟩).1.length - acc.length
                = ((rdLoop n d (acc ++ [d]) ⟨rest, d :: h⟩).1.length
                    - (acc.length + 1)) + 1 := by omega
            rw [h1, List.drop_succ_cons]
          rcases ih.2.2 with hin | hin
          · left
            rw [hin, hdrop]
          · right
            rw [hin, hdrop]

/-- C8: `readDirective` with the call-site bound `MaxDirectiveName = 10`
stores at most 9 characters (NUL-termination is implicit in the list
model), and in every terminating case the stream holds exactly the
characters beyond the stored ones: the terminator, when one was read,
has been pushed back (an EOF terminator reappears as the pushed-back
EOF marker), and in the buffer-full case the next character was never
consumed.  Either way the caller re-reads the terminating character. -/
theorem readDirective_spec (c : Int) (f : FileSt) :
    (readDirective c MaxDirectiveName f).1.length ≤ 9 ∧
    1 ≤ (readDirective c MaxDirectiveName f).1.length ∧
    ((readDirective c MaxDirectiveName f).2.2.input
        = f.input.drop ((readDirective c MaxDirectiveName f).1.length - 1) ∨
     (readDirective c MaxDirectiveName f).2.2.input
        = EOF :: f.input.drop ((readDirective c MaxDirectiveName f).1.length - 1)) := by
  have h := rdLoop_spec (MaxDirectiveName - 2) c [c] f
  simp only [List.length_cons, List.length_nil] at h
  simp only [readDirective]
  refine ⟨?_, ?_, h.2.2⟩
  · have h1 := h.1
    simp only [MaxDirectiveName] at h1 ⊢
    omega
  · have h1 := h.2.1
    omega

/-! ### Stream world: identifier reading and directive dispatch
(get.c:197-430) -/

/-- The do-while of `readIdentifier` (get.c:200-210). -/
def riLoop (c : Int) (acc : List Int) (f : FileSt) : List Int × FileSt :=
  let acc2 := acc ++ [c]
  let r := getcFromInputFile f
  if h : ¬ r.1 = EOF ∧ isident r.1 then riLoop r.1 acc2 r.2
  else (acc2, fileUngetc r.1 r.2)
termination_by f.input.length
decreasing_by
  exact getc_lt f h.1

/-- `readIdentifier` (get.c:200-210): reads the identifier starting
with `c` and pushes back the terminating character. -/
def readIdentifier (c : Int) (f : FileSt) : List Int × FileSt :=
  riLoop c [] f

/-- `makeDefineTag` (get.c:302-327): hands the macro name to the
external tag sink.  The sink-side emission guards
(`includingDefineTags`, `Option.include.fileScope`, `isHeaderFile`) and
the signature attachment read external state and do not touch the
character stream; the model records the name and whether the macro was
parameterized. -/
def makeDefineTag (name : List Int) (_parameterized : Bool) (st : cppState) : cppState :=
  { st with tags := st.tags ++ [name] }

/-- `directiveDefine` (get.c:329-344). -/
def directiveDefine (c : Int) (st : cppState) (f : FileSt) : cppState × FileSt :=
  if isident1 c then
    let ri := readIdentifier c f
    let r := getcFromInputFile ri.2
    let f2 := fileUngetc r.1 r.2
    let parameterized := r.1 = 40
    let st1 := { st with dName := ri.1 }
    let st2 := if ¬ isIgnore st1 then makeDefineTag ri.1 parameterized st1 else st1
    ({ st2 with dState := eState.DRCTV_NONE }, f2)
  else
    ({ st with dState := eState.DRCTV_NONE }, f)

/-- The space-skipping do-while of `directivePragma` (get.c:354-357):
`do c = getcFromInputFile () while (c == SPACE)`. -/
def skipSpacesLoop (f : FileSt) : Int × FileSt :=
  let r := getcFromInputFile f
  if h : r.1 = SPACE then skipSpacesLoop r.2 else r
termination_by f.input.length
decreasing_by
  exact getc_lt f (by rw [h]; decide)

/-- `directivePragma` (get.c:346-366): `#pragma weak NAME` emits a
macro tag for NAME; any other pragma is discarded. -/
def directivePragma (c : Int) (st : cppState) (f : FileSt) : cppState × FileSt :=
  if isident1 c then
    let ri := readIdentifier c f
    let st1 := { st with dName := ri.1 }
    if ri.1 = [119, 101, 97, 107] then
      let sp := skipSpacesLoop ri.2
      if isident1 sp.1 then
        let ri2 := readIdentifier sp.1 sp.2
        ({ makeDefineTag ri2.1 false { st1 with dName := ri2.1 } with
            dState := eState.DRCTV_NONE }, ri2.2)
      else ({ st1 with dState := eState.DRCTV_NONE }, sp.2)
    else ({ st1 with dState := eState.DRCTV_NONE }, ri.2)
  else ({ st with dState := eState.DRCTV_NONE }, f)

/-- `directiveIf` (get.c:368-375): the branch counts as chosen iff the
first non-space character after `#if` is not `0`. -/
def directiveIf (c : Int) (st : cppState) : Bool × cppState :=
  let p := pushConditional (c ≠ 48) st
  (p.1, { p.2 with dState := eState.DRCTV_NONE })

/-- `directiveHash` (get.c:377-412): reads the directive word and
dispatches.  The keyword codes spell `define`, `undef`, `if`, `elif`,
`else`, `endif`, `pragma`. -/
def directiveHash (c : Int) (st : cppState) (f : FileSt) : Bool × cppState × FileSt :=
  let rd := readDirective c MaxDirectiveName f
  let w := rd.1
  let f1 := rd.2.2
  if w = [100, 101, 102, 105, 110, 101] then
    (false, { st with dState := eState.DRCTV_DEFINE }, f1)
  else if w = [117, 110, 100, 101, 102] then
    (false, { st with dState := eState.DRCTV_UNDEF }, f1)
  else if w.take 2 = [105, 102] then
    (false, { st with dState := eState.DRCTV_IF }, f1)
  else if w = [101, 108, 105, 102] ∨ w = [101, 108, 115, 101] then
    let ib := isIgnoreBranch st
    let si := setIgnore ib.1 ib.2
    let st2 := if ¬ si.1 ∧ w = [101, 108, 115, 101] then chooseBranch si.2 else si.2
    (si.1, { st2 with dState := eState.DRCTV_NONE }, f1)
  else if w = [101, 110, 100, 105, 102] then
    let p := popConditional st
    (p.1, { p.2 with dState := eState.DRCTV_NONE }, f1)
  else if w = [112, 114, 97, 103, 109, 97] then
    (false, { st with dState := eState.DRCTV_PRAGMA }, f1)
  else
    (false, { st with dState := eState.DRCTV_NONE }, f1)

/-- `handleDirective` (get.c:416-430). -/
def handleDirective (c : Int) (st : cppState) (f : FileSt) : Bool × cppState × FileSt :=
  match st.dState with
  | eState.DRCTV_NONE => (isIgnore st, st, f)
  | eState.DRCTV_DEFINE =>
    let r := directiveDefine c st f
    (isIgnore st, r.1, r.2)
  | eState.DRCTV_HASH => directiveHash c st f
  | eState.DRCTV_IF =>
    let r := directiveIf c st
    (r.1, r.2, f)
  | eState.DRCTV_PRAGMA =>
    let r := directivePragma c st f
    (isIgnore st, r.1, r.2)
  | eState.DRCTV_UNDEF =>
    let r := directiveDefine c st f
    (isIgnore st, r.1, r.2)

/-! ### Stream world: the driver `cppGetc` (get.c:627-837)

The do-while body is `processChar`; the two `goto process` re-entries
(`??/` to backslash, `??=` and `%:` to hash) are the shared helpers
`procBackslash` and `procHash`, and the `enter:` label is `enterTail`.
`continue` and `break` both lead to the loop condition
`directive || ignore`, so every branch simply yields the next loop
state. -/

/-- The `enter:` tail of the driver switch (get.c:824-828). -/
def enterTail (c : Int) (directive ignore : Bool) (st : cppState) (f : FileSt) :
    Int × Bool × Bool × cppState × FileSt :=
  let st1 := { st with accept := false }
  if directive then
    let h := handleDirective c st1 f
    (c, directive, h.1, h.2.1, h.2.2)
  else (c, directive, ignore, st1, f)

/-- The `case '#'` branch (get.c:666-673), also the target of the
`??=` and `%:` rewrites. -/
def procHash (c : Int) (directive ignore : Bool) (st : cppState) (f : FileSt) :
    Int × Bool × Bool × cppState × FileSt :=
  if st.accept then
    (c, true, ignore, { st with dState := eState.DRCTV_HASH, accept := false }, f)
  else (c, directive, ignore, st, f)

/-- The `case BACKSLASH` branch (get.c:699-708), also the target of the
`??/` rewrite: swallow a following newline (line continuation), push
back anything else. -/
def procBackslash (directive ignore : Bool) (st : cppState) (f : FileSt) :
    Int × Bool × Bool × cppState × FileSt :=
  let r := getcFromInputFile f
  if r.1 = NEWLINE then (BACKSLASH, directive, ignore, st, r.2)
  else (BACKSLASH, directive, ignore, st, fileUngetc r.1 r.2)

/-- One iteration of the driver's do-while body, the switch of
get.c:644-829, for the character `c` just read.  Returns the new
`c`, `directive`, `ignore`, preprocessor state and stream. -/
def processChar (c : Int) (directive ignore : Bool) (st : cppState) (f : FileSt) :
    Int × Bool × Bool × cppState × FileSt :=
  if c = EOF then (c, false, false, st, f)
  else if c = TAB ∨ c = SPACE then (c, directive, ignore, st, f)
  else if c = NEWLINE then
    let directive2 := if directive ∧ ¬ ignore then false else directive
    (c, directive2, ignore, { st with accept := true }, f)
  else if c = DOUBLE_QUOTE then
    let sk := skipToEndOfString false f
    (sk.1, directive, ignore, { st with accept := false }, sk.2)
  else if c = 35 then procHash c directive ignore st f
  else if c = SINGLE_QUOTE then
    let sk := skipToEndOfChar f
    (sk.1, directive, ignore, { st with accept := false }, sk.2)
  else if c = 47 then
    let ic := isComment f
    if ic.1 = Comment.COMMENT_C then
      let sk := skipOverCComment ic.2
      (sk.1, directive, ignore, st, sk.2)
    else if ic.1 = Comment.COMMENT_CPLUS then
      let sk := skipOverCplusComment ic.2
      let f2 := if sk.1 = NEWLINE then fileUngetc sk.1 sk.2 else sk.2
      (sk.1, directive, ignore, st, f2)
    else if ic.1 = Comment.COMMENT_D then
      let sk := skipOverDComment ic.2
      (sk.1, directive, ignore, st, sk.2)
    else
      (c, directive, ignore, { st with accept := false }, ic.2)
  else if c = BACKSLASH then procBackslash directive ignore st f
  else if c = 63 then
    let r := getcFromInputFile f
    if r.1 ≠ 63 then (c, directive, ignore, st, fileUngetc r.1 r.2)
    else
      let r2 := getcFromInputFile r.2
      if r2.1 = 40 then (91, directive, ignore, st, r2.2)
      else if r2.1 = 41 then (93, directive, ignore, st, r2.2)
      else if r2.1 = 60 then (123, directive, ignore, st, r2.2)
      else if r2.1 = 62 then (125, directive, ignore, st, r2.2)
      else if r2.1 = 47 then procBackslash directive ignore st r2.2
      else if r2.1 = 33 then (124, directive, ignore, st, r2.2)
      else if r2.1 = SINGLE_QUOTE then (94, directive, ignore, st, r2.2)
      else if r2.1 = 45 then (126, directive, ignore, st, r2.2)
      else if r2.1 = 61 then procHash 35 directive ignore st r2.2
      else (c, directive, ignore, st, fileUngetc r2.1 (fileUngetc 63 r2.2))
  else if c = 60 then
    let r := getcFromInputFile f
    if r.1 = 58 then enterTail 91 directive ignore st r.2
    else if r.1 = 37 then enterTail 123 directive ignore st r.2
    else enterTail c directive ignore st (fileUngetc r.1 r.2)
  else if c = 58 then
    let r := getcFromInputFile f
    if r.1 = 62 then enterTail 93 directive ignore st r.2
    else enterTail c directive ignore st (fileUngetc r.1 r.2)
  else if c = 37 then
    let r := getcFromInputFile f
    if r.1 = 62 then enterTail 125 directive ignore st r.2
    else if r.1 = 58 then procHash 35 directive ignore st r.2
    else enterTail c directive ignore st (fileUngetc r.1 r.2)
  else if c = 64 ∧ st.hasAtLiteralStrings then
    let r := getcFromInputFile f
    if r.1 = DOUBLE_QUOTE then
      let sk := skipToEndOfString true r.2
      (sk.1, directive, ignore, { st with accept := false }, sk.2)
    else enterTail c directive ignore st (fileUngetc r.1 r.2)
  else if c = 82 ∧ st.hasCxxRawLiteralStrings then
    let prev := fileGetNthPrevC 1 0 f
    let prev2 := fileGetNthPrevC 2 0 f
    let prev3 := fileGetNthPrevC 3 0 f
    if ¬ isident prev ∨
        (¬ isident prev2 ∧ (prev = 76 ∨ prev = 117 ∨ prev = 85)) ∨
        (¬ isident prev3 ∧ (prev2 = 117 ∧ prev = 56)) then
      let r := getcFromInputFile f
      if r.1 ≠ DOUBLE_QUOTE then enterTail c directive ignore st (fileUngetc r.1 r.2)
      else
        let sk := skipToEndOfCxxRawLiteralString r.2
        (sk.1, directive, ignore, { st with accept := false }, sk.2)
    else enterTail c directive ignore st f
  else enterTail c directive ignore st f

/-- The driver's do-while loop (get.c:640-830), with explicit fuel.
Each iteration consumes at least one input character except for at most
one iteration that turns the empty stream into a pushed-back EOF marker
(which the next iteration consumes and stops on), so
`input.length + 4` units of fuel always suffice and the fuel-exhausted
value is never reached from `cppGetc`. -/
def cppLoopFuel : Nat → Bool → Bool → cppState → FileSt → Int × cppState × FileSt
  | 0, _, _, st, f => (EOF, st, f)
  | Nat.succ fuel, directive, ignore, st, f =>
    let r := getcFromInputFile f
    let p := processChar r.1 directive ignore st r.2
    if p.2.1 ∨ p.2.2.1 then cppLoopFuel fuel p.2.1 p.2.2.1 p.2.2.2.1 p.2.2.2.2
    else (p.1, p.2.2.2.1, p.2.2.2.2)

/-- `cppGetc` (get.c:627-837): serve a pushed-back character if one is
pending (`'\0'` marks an empty slot), otherwise run the scanning loop. -/
def cppGetc (st : cppState) (f : FileSt) : Int × cppState × FileSt :=
  if st.ungetch ≠ 0 then
    (st.ungetch, { st with ungetch := st.ungetch2, ungetch2 := 0 }, f)
  else cppLoopFuel (f.input.length + 4) false false st f

/-- Repeatedly call `cppGetc`, collecting the returned characters up to
and including the first EOF (or until the fuel runs out). -/
def cppRun : Nat → cppState → FileSt → List Int
  | 0, _, _ => []
  | Nat.succ n, st, f =>
    let r := cppGetc st f
    if r.1 = EOF then [r.1]
    else r.1 :: cppRun n r.2.1 r.2.2

/-! ### C2: suppression of `#if 0` bodies

The five driver states traversed while the `#if 0` line is consumed,
and the three traversed while the closing `#endif` line is consumed,
written out as explicit records so that each loop iteration is a
definitional-reduction step. -/

theorem cppLoopFuel_succ (fuel : Nat) (d i : Bool) (st : cppState) (f : FileSt) :
    cppLoopFuel (fuel + 1) d i st f =
      (let r := getcFromInputFile f
       let p := processChar r.1 d i st r.2
       if p.2.1 ∨ p.2.2.1 then cppLoopFuel fuel p.2.1 p.2.2.1 p.2.2.2.1 p.2.2.2.2
       else (p.1, p.2.2.2.1, p.2.2.2.2)) := rfl

def stA1 : cppState :=
  { cppInit false false false false with
    dState := eState.DRCTV_HASH, accept := false }

def stA2 : cppState :=
  { stA1 with dState := eState.DRCTV_IF }

def stA4 : cppState :=
  { stA1 with
    dState := eState.DRCTV_NONE,
    nestLevel := 1,
    ifdef := (List.replicate 20 defaultConditional).set 1 ⟨false, false, false, true⟩ }

def stAfterIf0 : cppState :=
  { stA4 with accept := true }

/-- The driver state while an ignored body character is processed: only
the `accept` flag varies. -/
def stB (a : Bool) : cppState :=
  { stAfterIf0 with accept := a }

def stC1 : cppState :=
  { stAfterIf0 with dState := eState.DRCTV_HASH, accept := false }

def stC2 : cppState :=
  { stC1 with dState := eState.DRCTV_NONE, nestLevel := 0 }

def stFinal : cppState :=
  { stC2 with accept := true }

set_option maxHeartbeats 1000000 in
theorem stepA1 (fuel : Nat) (t h : List Int) :
    cppLoopFuel (fuel + 1) false false (cppInit false false false false) ⟨35 :: t, h⟩
      = cppLoopFuel fuel true false stA1 ⟨t, 35 :: h⟩ := rfl

set_option maxHeartbeats 2000000 in
theorem stepA2 (fuel : Nat) (t h : List Int) :
    cppLoopFuel (fuel + 1) true false stA1 ⟨105 :: 102 :: 32 :: t, h⟩
      = cppLoopFuel fuel true false stA2 ⟨32 :: t, 32 :: 102 :: 105 :: h⟩ := rfl

set_option maxHeartbeats 1000000 in
theorem stepA3 (fuel : Nat) (t h : List Int) :
    cppLoopFuel (fuel + 1) true false stA2 ⟨32 :: t, h⟩
      = cppLoopFuel fuel true false stA2 ⟨t, 32 :: h⟩ := rfl

set_option maxHeartbeats 2000000 in
theorem stepA4 (fuel : Nat) (t h : List Int) :
    cppLoopFuel (fuel + 1) true false stA2 ⟨48 :: t, h⟩
      = cppLoopFuel fuel true true stA4 ⟨t, 48 :: h⟩ := rfl

set_option maxHeartbeats 1000000 in
theorem stepA5 (fuel : Nat) (t h : List Int) :
    cppLoopFuel (fuel + 1) true true stA4 ⟨10 :: t, h⟩
      = cppLoopFuel fuel true true stAfterIf0 ⟨t, 10 :: h⟩ := rfl

set_option maxHeartbeats 1000000 in
theorem stepC1 (fuel : Nat) (t h : List Int) :
    cppLoopFuel (fuel + 1) true true stAfterIf0 ⟨35 :: t, h⟩
      = cppLoopFuel fuel true true stC1 ⟨t, 35 :: h⟩ := rfl

set_option maxHeartbeats 4000000 in
theorem stepC2 (fuel : Nat) (t h : List Int) :
    cppLoopFuel (fuel + 1) true true stC1
        ⟨101 :: 110 :: 100 :: 105 :: 102 :: 10 :: t, h⟩
      = cppLoopFuel fuel true false stC2
          ⟨10 :: t, 10 :: 102 :: 105 :: 100 :: 110 :: 101 :: h⟩ := rfl

set_option maxHeartbeats 1000000 in
theorem stepC3 (fuel : Nat) (t h : List Int) :
    cppLoopFuel (fuel + 1) true false stC2 ⟨10 :: t, h⟩
      = (10, stFinal, ⟨t, 10 :: h⟩) := rfl

/-- The `#if 0` line: processing `#if 0\n` takes the driver from the
initial state into the ignoring state. -/
theorem phaseA (fuel : Nat) (t h : List Int) :
    cppLoopFuel (fuel + 5) false false (cppInit false false false false)
      ⟨[35, 105, 102, 32, 48, 10] ++ t, h⟩
    = cppLoopFuel fuel true true stAfterIf0 ⟨t, [10, 48, 32, 32, 102, 105, 35] ++ h⟩ := by
  rw [show fuel + 5 = fuel + 4 + 1 from rfl,
    show ([35, 105, 102, 32, 48, 10] : List Int) ++ t
      = 35 :: (105 :: 102 :: 32 :: (48 :: 10 :: t)) from rfl,
    stepA1,
    show fuel + 4 = fuel + 3 + 1 from rfl, stepA2,
    show fuel + 3 = fuel + 2 + 1 from rfl, stepA3,
    show fuel + 2 = fuel + 1 + 1 from rfl, stepA4, stepA5]
  rfl

/-- The `#endif` line: processing `#endif\n` pops the conditional and
returns the newline. -/
theorem phaseC (fuel : Nat) (t h : List Int) :
    cppLoopFuel (fuel + 3) true true stAfterIf0
      ⟨[35, 101, 110, 100, 105, 102, 10] ++ t, h⟩
    = (10, stFinal, ⟨t, [10, 10, 102, 105, 100, 110, 101, 35] ++ h⟩) := by
  rw [show fuel + 3 = fuel + 2 + 1 from rfl,
    show ([35, 101, 110, 100, 105, 102, 10] : List Int) ++ t
      = 35 :: (101 :: 110 :: 100 :: 105 :: 102 :: 10 :: t) from rfl,
    stepC1,
    show fuel + 2 = fuel + 1 + 1 from rfl, stepC2, stepC3]
  rfl

/-- A character that may appear in the amended claim's suppressed body:
a byte that is none of the characters with dedicated driver cases
(`#`, `"`, `'`, `/`, `\`, `?`, `<`, `:`, `%`). -/
def bodyChar (c : Int) : Bool :=
  (0 ≤ c && c ≤ 255) &&
    !(c = 35) && !(c = 34) && !(c = 39) && !(c = 47) && !(c = 92) &&
    !(c = 63) && !(c = 60) && !(c = 58) && !(c = 37)

/-- The value of the driver's `accept` flag after an ignored body:
newline sets it, space and tab leave it, anything else clears it. -/
def bodyAccept (a : Bool) : List Int → Bool
  | [] => a
  | c :: r => bodyAccept (if c = 10 then true else if c = 9 ∨ c = 32 then a else false) r

theorem processChar_body (c : Int) (hb : bodyChar c = true)
    (hc9 : ¬ c = 9) (hc32 : ¬ c = 32) (hc10 : ¬ c = 10) (a : Bool) (f : FileSt) :
    processChar c true true (stB a) f = (c, true, true, stB false, f) := by
  have h35 : ¬ c = 35 := by intro hc; subst hc; exact absurd hb (by decide)
  have h34 : ¬ c = 34 := by intro hc; subst hc; exact absurd hb (by decide)
  have h39 : ¬ c = 39 := by intro hc; subst hc; exact absurd hb (by decide)
  have h47 : ¬ c = 47 := by intro hc; subst hc; exact absurd hb (by decide)
  have h92 : ¬ c = 92 := by intro hc; subst hc; exact absurd hb (by decide)
  have h63 : ¬ c = 63 := by intro hc; subst hc; exact absurd hb (by decide)
  have h60 : ¬ c = 60 := by intro hc; subst hc; exact absurd hb (by decide)
  have h58 : ¬ c = 58 := by intro hc; subst hc; exact absurd hb (by decide)
  have h37 : ¬ c = 37 := by intro hc; subst hc; exact absurd hb (by decide)
  have hEOF : ¬ c = EOF := by intro hc; subst hc; exact absurd hb (by decide)
  unfold processChar
  rw [if_neg hEOF,
    if_neg (by intro hor; rcases hor with h | h; exact hc9 h; exact hc32 h),
    if_neg (show ¬ c = NEWLINE from hc10),
    if_neg (by unfold DOUBLE_QUOTE; exact h34),
    if_neg h35,
    if_neg (by unfold SINGLE_QUOTE; exact h39),
    if_neg h47,
    if_neg (by unfold BACKSLASH; exact h92),
    if_neg h63, if_neg h60, if_neg h58, if_neg h37,
    if_neg (by
      intro hand
      exact Bool.false_ne_true
        ((rfl : (stB a).hasAtLiteralStrings = false).symm.trans hand.2)),
    if_neg (by
      intro hand
      exact Bool.false_ne_true
        ((rfl : (stB a).hasCxxRawLiteralStrings = false).symm.trans hand.2))]
  unfold enterTail
  rw [if_pos rfl]
  rfl

theorem stepB_space (fuel : Nat) (c : Int) (hc : c = 9 ∨ c = 32) (a : Bool)
    (t h : List Int) :
    cppLoopFuel (fuel + 1) true true (stB a) ⟨c :: t, h⟩
      = cppLoopFuel fuel true true (stB a) ⟨t, c :: h⟩ := by
  rcases hc with h9 | h9 <;> subst h9 <;> rfl

theorem stepB_nl (fuel : Nat) (a : Bool) (t h : List Int) :
    cppLoopFuel (fuel + 1) true true (stB a) ⟨10 :: t, h⟩
      = cppLoopFuel fuel true true (stB true) ⟨t, 10 :: h⟩ := rfl

theorem stepB_other (fuel : Nat) (c : Int) (hb : bodyChar c = true)
    (hc9 : ¬ c = 9) (hc32 : ¬ c = 32) (hc10 : ¬ c = 10) (a : Bool) (t h : List Int) :
    cppLoopFuel (fuel + 1) true true (stB a) ⟨c :: t, h⟩
      = cppLoopFuel fuel true true (stB false) ⟨t, c :: h⟩ := by
  rw [cppLoopFuel_succ]
  show (let p := processChar c true true (stB a) ⟨t, c :: h⟩
        if p.2.1 ∨ p.2.2.1 then cppLoopFuel fuel p.2.1 p.2.2.1 p.2.2.2.1 p.2.2.2.2
        else (p.1, p.2.2.2.1, p.2.2.2.2)) = _
  rw [processChar_body c hb hc9 hc32 hc10 a ⟨t, c :: h⟩]
  rfl

/-- Ignored body characters: each takes one loop iteration, is consumed
without being returned, and only toggles the `accept` flag. -/
theorem phaseB : ∀ (body : List Int), (∀ c ∈ body, bodyChar c = true) →
    ∀ (fuel : Nat) (a : Bool) (t h : List Int),
    cppLoopFuel (fuel + body.length) true true (stB a) ⟨body ++ t, h⟩
      = cppLoopFuel fuel true true (stB (bodyAccept a body)) ⟨t, body.reverse ++ h⟩
  | [], _, fuel, a, t, h => by simp [bodyAccept]
  | c :: bs, hb, fuel, a, t, h => by
    have hc : bodyChar c = true := hb c (List.mem_cons_self c bs)
    have hbs : ∀ x ∈ bs, bodyChar x = true := fun x hx => hb x (List.mem_cons_of_mem c hx)
    have hfl : fuel + (c :: bs).length = (fuel + bs.length) + 1 := by
      simp only [List.length_cons]
      omega
    rw [hfl, List.cons_append]
    have hrev : (c :: bs).reverse ++ h = bs.reverse ++ (c :: h) := by
      simp [List.reverse_cons, List.append_assoc]
    by_cases h10 : c = 10
    · subst h10
      rw [stepB_nl, phaseB bs hbs fuel true t (10 :: h), hrev]
      rfl
    · by_cases hsp : c = 9 ∨ c = 32
      · rw [stepB_space (fuel + bs.length) c hsp, phaseB bs hbs fuel a t (c :: h), hrev]
        have : bodyAccept a (c :: bs) = bodyAccept a bs := by
          rw [bodyAccept, if_neg h10, if_pos hsp]
        rw [this]
      · have hc9 : ¬ c = 9 := fun hx => hsp (Or.inl hx)
        have hc32 : ¬ c = 32 := fun hx => hsp (Or.inr hx)
        rw [stepB_other (fuel + bs.length) c hc hc9 hc32 h10, phaseB bs hbs fuel false t (c :: h), hrev]
        have : bodyAccept a (c :: bs) = bodyAccept false bs := by
          rw [bodyAccept, if_neg h10, if_neg hsp]
        rw [this]

theorem bodyAccept_last : ∀ (body : List Int) (a : Bool),
    body.getLast? = some 10 → bodyAccept a body = true
  | [], _, h => by simp at h
  | [c], a, h => by
    have hc : c = 10 := by simpa using h
    subst hc
    rfl
  | c :: d :: r, a, h => by
    rw [List.getLast?_cons_cons] at h
    rw [bodyAccept]
    exact bodyAccept_last (d :: r) _ h

/-- C2, amended: with `Option.if0 = false` and `BraceFormat = false`,
a `#if 0` line followed by a suppressed branch body made of lines of
driver-neutral characters (no `#`, quotes, comment or escape starters,
trigraph/digraph leads) and closed by `#endif` is consumed within a
single `cppGetc` call: the call returns the newline of the `#endif`
line and leaves exactly the stream past that line, so no character of
the body is ever returned to the caller, in this call or any later
one.  (The restriction on the body is needed: quote characters let a
string literal swallow a nested `#if`, after which the matching
`#endif` is mispaired and body characters leak.) -/
theorem if0_suppression_amended (body rest : List Int)
    (hb : ∀ c ∈ body, bodyChar c = true)
    (hlast : body = [] ∨ body.getLast? = some 10) :
    cppGetc (cppInit false false false false)
      ⟨([35, 105, 102, 32, 48, 10] ++ body) ++ ([35, 101, 110, 100, 105, 102, 10] ++ rest), []⟩
    = (10, stFinal,
        ⟨rest, [10, 10, 102, 105, 100, 110, 101, 35] ++
          (body.reverse ++ [10, 48, 32, 32, 102, 105, 35])⟩) := by
  rw [cppGetc, if_neg (by simp [cppInit])]
  have hlen : (([35, 105, 102, 32, 48, 10] ++ body)
      ++ ([35, 101, 110, 100, 105, 102, 10] ++ rest) : List Int).length + 4
      = (((rest.length + 9) + 3) + body.length) + 5 := by
    simp only [List.length_append, List.length_cons, List.length_nil]
    omega
  have hassoc : (([35, 105, 102, 32, 48, 10] ++ body)
      ++ ([35, 101, 110, 100, 105, 102, 10] ++ rest) : List Int)
      = [35, 105, 102, 32, 48, 10] ++ (body ++ ([35, 101, 110, 100, 105, 102, 10] ++ rest)) := by
    simp [List.append_assoc]
  rw [hlen, hassoc, phaseA]
  have hstB : stAfterIf0 = stB true := rfl
  rw [hstB, phaseB body hb ((rest.length + 9) + 3) true _ _]
  have hacc : bodyAccept true body = true := by
    rcases hlast with h | h
    · rw [h]; rfl
    · exact bodyAccept_last body true h
  rw [hacc, ← hstB, phaseC]
  rw [List.append_nil]

/-- Witness for `if0_suppression_amended` at a concrete input
(`body = "skip\n"`, `rest = "k"`). -/
theorem if0_suppression_amended_witness :
    ((∀ c ∈ ([115, 107, 105, 112, 10] : List Int), bodyChar c = true) ∧
      (([115, 107, 105, 112, 10] : List Int) = [] ∨
        ([115, 107, 105, 112, 10] : List Int).getLast? = some 10)) ∧
    cppGetc (cppInit false false false false)
      ⟨([35, 105, 102, 32, 48, 10] ++ [115, 107, 105, 112, 10])
        ++ ([35, 101, 110, 100, 105, 102, 10] ++ [107]), []⟩
    = (10, stFinal,
        ⟨[107], [10, 10, 102, 105, 100, 110, 101, 35] ++
          (([115, 107, 105, 112, 10] : List Int).reverse
            ++ [10, 48, 32, 32, 102, 105, 35])⟩) :=
  ⟨⟨by decide, by decide⟩,
   if0_suppression_amended [115, 107, 105, 112, 10] [107] (by decide) (by decide)⟩

/-! ### C2 counterexample: claim-side reading of the suppressed body.
These definitions follow the claim text ("characters occurring between
a `#if 0` directive and its matching `#endif`"), pairing openers and
`#endif` lines textually by nesting depth. -/

def dropSpaceTab : List Int → List Int
  | [] => []
  | c :: r => if c = 32 ∨ c = 9 then dropSpaceTab r else c :: r

def splitLinesGo (cur : List Int) : List Int → List (List Int)
  | [] => [cur.reverse]
  | c :: r => if c = 10 then cur.reverse :: splitLinesGo [] r else splitLinesGo (c :: cur) r

def linesOf (l : List Int) : List (List Int) := splitLinesGo [] l

def afterHash (l : List Int) : Option (List Int) :=
  match dropSpaceTab l with
  | 35 :: r => some (dropSpaceTab r)
  | _ => none

def isIf0Line (l : List Int) : Bool :=
  match afterHash l with
  | some (105 :: 102 :: r) => (dropSpaceTab r).take 1 = [48]
  | _ => false

def opensCond (l : List Int) : Bool :=
  match afterHash l with
  | some w => w.take 2 = [105, 102]
  | none => false

def isEndifLine (l : List Int) : Bool :=
  match afterHash l with
  | some w => w.take 5 = [101, 110, 100, 105, 102]
  | none => false

def eatBody : Nat → List (List Int) → List (List Int)
  | _, [] => []
  | depth, l :: r =>
    if isEndifLine l then
      match depth with
      | 0 => []
      | d + 1 => l :: eatBody d r
    else if opensCond l then l :: eatBody (depth + 1) r
    else l :: eatBody depth r

def findIf0Body : List (List Int) → List (List Int)
  | [] => []
  | l :: r => if isIf0Line l then eatBody 0 r else findIf0Body r

def suppressedBody (l : List Int) : List Int :=
  List.intercalate [10] (findIf0Body (linesOf l))

/-- The stream `#if 0 \n " \n #if 1 \n " \n #endif \n LEAK \n #endif \n rest`:
the string literal on line 2 swallows the nested `#if 1`, so the first
`#endif` pops the `#if 0` frame early. -/
def leakInput : List Int :=
  [35, 105, 102, 32, 48, 10,
   34, 10,
   35, 105, 102, 32, 49, 10,
   34, 10,
   35, 101, 110, 100, 105, 102, 10,
   76, 69, 65, 75, 10,
   35, 101, 110, 100, 105, 102, 10,
   114, 101, 115, 116]

set_option maxHeartbeats 8000000 in
set_option maxRecDepth 4000 in
/-- C2, counterexample: the byte `L` (76) lies between the `#if 0` and
its matching `#endif` and occurs nowhere else in the input, yet the
sequence of `cppGetc` results contains it — the suppressed body leaks. -/
theorem if0_suppression_claim_cex :
    (76 : Int) ∈ suppressedBody leakInput ∧
    leakInput.count 76 = 1 ∧
    cppRun 12 (cppInit false false false false) ⟨leakInput, []⟩
      = [10, 76, 69, 65, 75, 10, 10, 114, 101, 115, 116, -1] ∧
    (76 : Int) ∈ cppRun 12 (cppInit false false false false) ⟨leakInput, []⟩ := by
  have hrun : cppRun 12 (cppInit false false false false) ⟨leakInput, []⟩
      = [10, 76, 69, 65, 75, 10, 10, 114, 101, 115, 116, -1] := by
    simp [cppRun, cppGetc, cppLoopFuel, processChar, getcFromInputFile, fileUngetc,
      skipToEndOfString, enterTail, procHash, procBackslash, isComment, handleDirective,
      directiveHash, directiveIf, directiveDefine, directivePragma, readDirective, rdLoop,
      readIdentifier, riLoop, skipSpacesLoop, makeDefineTag, pushConditional, popConditional,
      isIgnoreBranch, setIgnore, chooseBranch, isalpha, isalnum, isident, isident1,
      isspacetab, EOF, TAB, NEWLINE, SPACE, DOUBLE_QUOTE, SINGLE_QUOTE, BACKSLASH,
      STRING_SYMBOL, CHAR_SYMBOL, cppInit, isIgnore, defaultConditional,
      MaxCppNestingLevel, MaxDirectiveName, leakInput]
  exact ⟨by decide, by decide, hrun, by rw [hrun]; decide⟩

/-! ### C6: end of stream inside comments, strings and character
literals -/

/-- Single-call driver behaviour on an unterminated C comment: with no
`*/` terminator in the remaining stream the comment cannot end, and
`cppGetc` returns EOF directly. -/
theorem cppGetc_unterminated_comment (st : cppState) (rest h : List Int)
    (hug : st.ungetch = 0) (hf : noStarSlash rest = true) :
    (cppGetc st ⟨47 :: 42 :: rest, h⟩).1 = EOF := by
  have hno : ¬ (st.ungetch ≠ 0) := not_not_intro hug
  rw [cppGetc, if_neg hno]
  show (skipOverCComment ⟨rest, 42 :: 47 :: h⟩).1 = EOF
  exact skipOverCComment_eof _ hf

/-- C6, amended: on premature end of stream inside an unterminated C
comment (one whose remaining stream holds no `*/` terminator) the
skipper returns EOF and `cppGetc` passes EOF to the caller with no
error raised; but `skipToEndOfString` and `skipToEndOfChar` never
return EOF — they return the sentinels STRING_SYMBOL (211) and
CHAR_SYMBOL (195) even when the stream ends inside the literal, the
driver returns that sentinel, and only the following `cppGetc` call
returns EOF. -/
theorem eof_in_literals_amended :
    (∀ f : FileSt, noStarSlash f.input = true → (skipOverCComment f).1 = EOF) ∧
    (∀ (st : cppState) (rest h : List Int), st.ungetch = 0 → noStarSlash rest = true →
      (cppGetc st ⟨47 :: 42 :: rest, h⟩).1 = EOF) ∧
    (∀ (b : Bool) (f : FileSt), (skipToEndOfString b f).1 = STRING_SYMBOL) ∧
    (∀ f : FileSt, (skipToEndOfChar f).1 = CHAR_SYMBOL) ∧
    cppRun 2 (cppInit false false false false) ⟨[34, 97], []⟩ = [STRING_SYMBOL, EOF] ∧
    cppRun 2 (cppInit false false false false) ⟨[39, 97], []⟩ = [CHAR_SYMBOL, EOF] := by
  refine ⟨fun f hf => skipOverCComment_eof f hf,
    fun st rest h hug hf => cppGetc_unterminated_comment st rest h hug hf,
    fun b f => skipToEndOfString_retval b f,
    fun f => skipToEndOfCharLoop_retval 0 0 f,
    ?_, ?_⟩ <;>
  · set_option maxHeartbeats 4000000 in
    simp [cppRun, cppGetc, cppLoopFuel, processChar, getcFromInputFile, fileUngetc,
      skipToEndOfString, skipToEndOfCharLoop, skipToEndOfChar, toupperI,
      enterTail, procHash, procBackslash, isComment, handleDirective,
      directiveHash, directiveIf, directiveDefine, directivePragma, readDirective, rdLoop,
      readIdentifier, riLoop, skipSpacesLoop, makeDefineTag, pushConditional, popConditional,
      isIgnoreBranch, setIgnore, chooseBranch, isalpha, isalnum, isident, isident1,
      isspacetab, EOF, TAB, NEWLINE, SPACE, DOUBLE_QUOTE, SINGLE_QUOTE, BACKSLASH,
      STRING_SYMBOL, CHAR_SYMBOL, cppInit, isIgnore, defaultConditional,
      MaxCppNestingLevel, MaxDirectiveName]

/-- Witness for `eof_in_literals_amended` at concrete inputs whose
unterminated comments contain stray `*` characters. -/
theorem eof_in_literals_amended_witness :
    (skipOverCComment ⟨[97, 42, 98], []⟩).1 = EOF ∧
    (cppGetc (cppInit false false false false)
        ⟨[47, 42, 97, 42, 42, 98], []⟩).1 = EOF :=
  ⟨eof_in_literals_amended.1 ⟨[97, 42, 98], []⟩ (by decide),
   eof_in_literals_amended.2.1 (cppInit false false false false)
     [97, 42, 42, 98] [] rfl (by decide)⟩

/-- C6, counterexample: on an already-exhausted stream the string and
character skippers return their sentinels, not EOF. -/
theorem eof_in_literals_claim_cex :
    (skipToEndOfString false ⟨[], []⟩).1 = STRING_SYMBOL ∧
    (skipToEndOfChar ⟨[], []⟩).1 = CHAR_SYMBOL ∧
    ¬ STRING_SYMBOL = EOF ∧ ¬ CHAR_SYMBOL = EOF :=
  ⟨skipToEndOfString_retval false ⟨[], []⟩, skipToEndOfCharLoop_retval 0 0 ⟨[], []⟩,
   by decide, by decide⟩

/-! ### C9: pushback round-trip at the public interface -/

/-- C9: for every character `c ≠ 0`, `cppUngetc c` followed by `cppGetc`
returns `c`, leaves the file untouched and restores the previous
pushback slot; but for `c = 0` the round-trip fails: `cppGetc` treats 0
as the empty-slot marker, so the pushed-back NUL is never returned, the
next call reads the underlying file instead, and a character previously
shifted into the second slot behind the NUL is lost for good. -/
theorem cppUngetc_roundtrip :
    (∀ (c : Int), ¬ c = 0 → ∀ (st : cppState) (f : FileSt),
      cppGetc (cppUngetc c st) f = (c, { st with ungetch2 := 0 }, f)) ∧
    ((cppGetc (cppUngetc 0 (cppUngetc 97 (cppInit false false false false)))
        ⟨[120], []⟩).1 = 120 ∧
      (cppGetc
        (cppGetc (cppUngetc 0 (cppUngetc 97 (cppInit false false false false)))
          ⟨[120], []⟩).2.1
        (cppGetc (cppUngetc 0 (cppUngetc 97 (cppInit false false false false)))
          ⟨[120], []⟩).2.2).1 = EOF) := by
  refine ⟨?_, by decide, by decide⟩
  intro c hc st f
  rw [cppGetc, if_pos (show (cppUngetc c st).ungetch ≠ 0 from hc)]
  rfl

/-- Witness for `cppUngetc_roundtrip` at `c = 97`. -/
theorem cppUngetc_roundtrip_witness :
    cppGetc (cppUngetc 97 (cppInit false false false false)) ⟨[120], []⟩
      = (97, { cppInit false false false false with ungetch2 := 0 }, ⟨[120], []⟩) :=
  cppUngetc_roundtrip.1 97 (by decide) (cppInit false false false false) ⟨[120], []⟩

end Get
